import Mathlib

/-!
Verification development for the react-mind repository.

This file gives a shallow embedding of the editing core of the repository:
the mindmap document model (`src/domain/mindmap.ts`), the editor state and
its structural operations (`src/hooks/useMindmapEditor.ts`), the document
signature (`src/utils/mindmapExport.ts`), the Google-Sheets store adapter
(`src/services/googleSheets/client.ts`) and the autosave pipeline of
`src/components/EditorShell.tsx`, together with theorems settling the
specification claims about them.

Modelling conventions:
* JavaScript effects are passed explicitly: `crypto.randomUUID()` becomes a
  `freshId`/`snapId` argument and `new Date().toISOString()` a `now`
  argument (one timestamp argument stands for the Date calls of one
  operation, which in the source differ by at most milliseconds and are
  never compared to each other).
* JavaScript numbers that the code uses as integers are modelled as `Int`.
* JavaScript string primitives whose Lean counterparts do not reduce in the
  kernel are re-modelled structurally on the character list (`jsTrim`,
  `jsStartsWith`, `jsSlice`); they agree with the JS primitives on all
  inputs appearing in this development.
* `Array.prototype.sort` with the sibling comparator is a stable sort by a
  total preorder, so any stable sorting algorithm computes it; we use
  insertion sort.  `localeCompare` is modelled by code-point order; no
  theorem below depends on the tie-break order between distinct titles.
-/

namespace ReactMind

/-- Node record of `src/domain/mindmap.ts` (`MindmapNode`). -/
structure MindmapNode where
  id : String
  title : String
  parentId : Option String
  order : Int
deriving DecidableEq

/-- Edge record of `src/domain/mindmap.ts` (`MindmapEdge`). -/
structure MindmapEdge where
  id : String
  fromNodeId : String
  toNodeId : String
deriving DecidableEq

/-- Snapshot source tag (`MindmapSnapshot.source`). -/
inductive SnapshotSource where
  | manual
  | imported
  | sync
deriving DecidableEq

/-- History snapshot record of `src/domain/mindmap.ts` (`MindmapSnapshot`). -/
structure MindmapSnapshot where
  id : String
  createdAtIso : String
  nodes : List MindmapNode
  edges : List MindmapEdge
  source : SnapshotSource
deriving DecidableEq

/-- Document record of `src/domain/mindmap.ts` (`MindmapDocument`). -/
structure MindmapDocument where
  id : String
  title : String
  nodes : List MindmapNode
  edges : List MindmapEdge
  updatedAtIso : String
deriving DecidableEq

/-- Model of `createEmptyMindmap` from `src/domain/mindmap.ts`; `now` stands
for `new Date().toISOString()`. -/
def createEmptyMindmap (id title now : String) : MindmapDocument :=
  { id := id
    title := title
    nodes := [{ id := "root", title := title, parentId := none, order := 0 }]
    edges := []
    updatedAtIso := now }

/-- Editor state of `useMindmapEditor` (`EditorState` in
`src/hooks/useMindmapEditor.ts`). -/
structure EditorState where
  document : MindmapDocument
  selectedNodeId : Option String
  collapsedNodeIds : List String
  history : List MindmapSnapshot
  historyIndex : Nat
deriving DecidableEq

/-- Model of `cloneNodes`: a structural per-node copy, which on immutable
Lean values is the identity map written out as in the source. -/
def cloneNodes (nodes : List MindmapNode) : List MindmapNode :=
  nodes.map (fun n => { id := n.id, title := n.title, parentId := n.parentId, order := n.order })

/-- Model of `createSnapshot`; `snapId` stands for `crypto.randomUUID()` and
`createdAt` for `new Date().toISOString()`. -/
def createSnapshot (snapId createdAt : String) (document : MindmapDocument)
    (source : SnapshotSource) : MindmapSnapshot :=
  { id := snapId
    createdAtIso := createdAt
    nodes := cloneNodes document.nodes
    edges := document.edges
    source := source }

/-- Model of `withUpdatedTimestamp`. -/
def withUpdatedTimestamp (now : String) (document : MindmapDocument) : MindmapDocument :=
  { document with updatedAtIso := now }

/-- Model of the `nodes.forEach` body inside the fixpoint loop of
`getDescendantIds`, for one node: append `node.id` whenever `node.parentId`
is truthy (non-null and non-empty), already collected, and `node.id` is not
yet collected. -/
def descStep (n : MindmapNode) (acc : List String) : List String :=
  match n.parentId with
  | some p => if p ≠ "" ∧ p ∈ acc ∧ n.id ∉ acc then acc ++ [n.id] else acc
  | none => acc

/-- Model of one pass of the fixpoint loop in `getDescendantIds`: scan the
nodes in order, applying `descStep` to each. -/
def descPass (nodes : List MindmapNode) (acc : List String) : List String :=
  match nodes with
  | [] => acc
  | n :: rest => descPass rest (descStep n acc)

/-- Iterate `descPass` a fixed number of times. -/
def descIterate (nodes : List MindmapNode) : Nat → List String → List String
  | 0, acc => acc
  | fuel + 1, acc => descIterate nodes fuel (descPass nodes acc)

/-- Model of `getDescendantIds` from `src/hooks/useMindmapEditor.ts`: the
source repeats passes over the node list until a pass adds nothing; since
each productive pass adds at least one node id, `nodes.length + 1` passes
always reach that fixpoint (proved below as `descPass_getDescendantIds`). -/
def getDescendantIds (nodes : List MindmapNode) (rootId : String) : List String :=
  descIterate nodes (nodes.length + 1) [rootId]

/-- Sibling comparator of `sortSiblingNodes`:
`a.order - b.order || a.title.localeCompare(b.title)` as a total preorder. -/
def siblingLE (a b : MindmapNode) : Prop :=
  a.order < b.order ∨ (a.order = b.order ∧ a.title ≤ b.title)

instance : DecidableRel siblingLE := fun a b => by unfold siblingLE; infer_instance

/-- Model of `sortSiblingNodes`: JS `Array.prototype.sort` is stable and the
comparator is a total preorder, so the result is computed by any stable
sort; insertion sort is used here. -/
def sortSiblingNodes (nodes : List MindmapNode) : List MindmapNode :=
  List.insertionSort siblingLE nodes

/-- Model of `pushHistory`: truncate the redo tail and append a snapshot of
`document`; returns the new history and new index. -/
def pushHistory (snapId createdAt : String) (current : EditorState)
    (document : MindmapDocument) : List MindmapSnapshot × Nat :=
  let snapshot := createSnapshot snapId createdAt document .manual
  let nextHistory := current.history.take (current.historyIndex + 1) ++ [snapshot]
  (nextHistory, nextHistory.length - 1)

/-- Model of `addChildNode` from `src/hooks/useMindmapEditor.ts`. -/
def addChildNode (freshId snapId now parentId : String) (s : EditorState) : EditorState :=
  match s.document.nodes.find? (fun n => n.id == parentId) with
  | none => s
  | some _parent =>
    let siblings := s.document.nodes.filter (fun n => n.parentId = some parentId)
    let newNode : MindmapNode :=
      { id := freshId, title := "New Node", parentId := some parentId,
        order := (siblings.length : Int) }
    let nextDocument := withUpdatedTimestamp now
      { s.document with nodes := s.document.nodes ++ [newNode] }
    let historyState := pushHistory snapId now s nextDocument
    { s with
      history := historyState.1
      historyIndex := historyState.2
      document := nextDocument
      selectedNodeId := some freshId
      collapsedNodeIds := s.collapsedNodeIds.filter (fun id => id ≠ parentId) }

/-- Model of `addSiblingNode` from `src/hooks/useMindmapEditor.ts`. -/
def addSiblingNode (freshId snapId now nodeId : String) (s : EditorState) : EditorState :=
  match s.document.nodes.find? (fun n => n.id == nodeId) with
  | none => s
  | some currentNode =>
    match currentNode.parentId with
    | none => s
    | some parentVal =>
      let siblings := s.document.nodes.filter (fun n => n.parentId = some parentVal)
      let newNode : MindmapNode :=
        { id := freshId, title := "New Node", parentId := some parentVal,
          order := (siblings.length : Int) }
      let nextDocument := withUpdatedTimestamp now
        { s.document with nodes := s.document.nodes ++ [newNode] }
      let historyState := pushHistory snapId now s nextDocument
      { s with
        history := historyState.1
        historyIndex := historyState.2
        document := nextDocument
        selectedNodeId := some freshId }

/-- Characters removed by the JS `String.prototype.trim` on the inputs of
this development. -/
def jsIsWhitespace (c : Char) : Bool :=
  c == ' ' || c == '\t' || c == '\n' || c == '\r'

/-- Model of `title.trim()` (structural on the character list so that the
kernel can evaluate it). -/
def jsTrim (s : String) : String :=
  ⟨((s.data.dropWhile jsIsWhitespace).reverse.dropWhile jsIsWhitespace).reverse⟩

/-- Model of `renameNode` from `src/hooks/useMindmapEditor.ts`. -/
def renameNode (snapId now nodeId title : String) (s : EditorState) : EditorState :=
  let trimmed := jsTrim title
  if trimmed = "" then s
  else
    let nextNodes := s.document.nodes.map (fun n =>
      if n.id = nodeId then { n with title := trimmed } else n)
    let nextDocument := withUpdatedTimestamp now { s.document with nodes := nextNodes }
    let historyState := pushHistory snapId now s nextDocument
    { s with
      history := historyState.1
      historyIndex := historyState.2
      document := nextDocument }

/-- Association-list model of a JS `Map<string, MindmapNode>` write
(`map.set(k, v)`): replace the entry if the key is present, else append. -/
def upsert (m : List (String × MindmapNode)) (k : String) (v : MindmapNode) :
    List (String × MindmapNode) :=
  if m.any (fun kv => kv.1 = k) then
    m.map (fun kv => if kv.1 = k then (k, v) else kv)
  else m ++ [(k, v)]

/-- Association-list model of a JS `Map.get`. -/
def lookupA (m : List (String × MindmapNode)) (k : String) : Option MindmapNode :=
  (m.find? (fun kv => decide (kv.1 = k))).map (fun kv => kv.2)

/-- Model of `new Set([movingNode.parentId, nextParentId])` iterated in
insertion order: the two-element list deduplicated. -/
def affectedParentIds (oldParent : Option String) (nextParentId : String) :
    List (Option String) :=
  if oldParent = some nextParentId then [some nextParentId]
  else [oldParent, some nextParentId]

/-- The `remainingNodes` of `moveNode`: all nodes except the moving one. -/
def moveRemaining (nodes : List MindmapNode) (movingId : String) : List MindmapNode :=
  nodes.filter (fun n => n.id ≠ movingId)

/-- The `targetSiblings` of `moveNode` after the `splice`: the sorted
children of the target parent (moving node excluded), with the moving node
— reparented — inserted at the clamped index. -/
def moveTargetSiblings (nodes : List MindmapNode) (movingNode : MindmapNode)
    (nextParentId : String) (nextIndex : Int) : List MindmapNode :=
  let remainingNodes := moveRemaining nodes movingNode.id
  let sorted := sortSiblingNodes (remainingNodes.filter (fun n => n.parentId = some nextParentId))
  let boundedIndex : Nat := (max 0 (min nextIndex (sorted.length : Int))).toNat
  let insertedNode : MindmapNode := { movingNode with parentId := some nextParentId }
  sorted.take boundedIndex ++ [insertedNode] ++ sorted.drop boundedIndex

/-- The `updatedNodesById` map of `moveNode` after both renumbering passes. -/
def moveUpdatedById (nodes : List MindmapNode) (movingNode : MindmapNode)
    (nextParentId : String) (nextIndex : Int) : List (String × MindmapNode) :=
  let remainingNodes := moveRemaining nodes movingNode.id
  let targetSiblings := moveTargetSiblings nodes movingNode nextParentId nextIndex
  let m0 := remainingNodes.foldl (fun m n => upsert m n.id n) []
  (affectedParentIds movingNode.parentId nextParentId).foldl
    (fun m parentId =>
      if parentId = some nextParentId then
        targetSiblings.enum.foldl (fun m pair =>
          upsert m pair.2.id
            { pair.2 with parentId := some nextParentId, order := (pair.1 : Int) }) m
      else
        let siblings := sortSiblingNodes
          (remainingNodes.filter (fun n => n.parentId = parentId))
        siblings.enum.foldl (fun m pair =>
          upsert m pair.2.id { pair.2 with order := (pair.1 : Int) }) m)
    m0

/-- The `nextNodes` of `moveNode`: original order, each node replaced by its
updated version looked up by id. -/
def moveNodeRebuild (nodes : List MindmapNode) (movingNode : MindmapNode)
    (nextParentId : String) (nextIndex : Int) : List MindmapNode :=
  nodes.filterMap (fun n => lookupA (moveUpdatedById nodes movingNode nextParentId nextIndex) n.id)

/-- Model of `moveNode` from `src/hooks/useMindmapEditor.ts`; the node-list
rebuild is split into `moveTargetSiblings` / `moveUpdatedById` /
`moveNodeRebuild` above. -/
def moveNode (snapId now nodeId nextParentId : String) (nextIndex : Int)
    (s : EditorState) : EditorState :=
  match s.document.nodes.find? (fun n => n.id == nodeId) with
  | none => s
  | some movingNode =>
    if movingNode.id = "root" then s
    else
      match s.document.nodes.find? (fun n => n.id == nextParentId) with
      | none => s
      | some _targetParent =>
        let descendants := getDescendantIds s.document.nodes movingNode.id
        if nextParentId ∈ descendants then s
        else
          let nextNodes := moveNodeRebuild s.document.nodes movingNode nextParentId nextIndex
          let nextDocument := withUpdatedTimestamp now { s.document with nodes := nextNodes }
          let historyState := pushHistory snapId now s nextDocument
          { s with
            history := historyState.1
            historyIndex := historyState.2
            document := nextDocument
            selectedNodeId := some nodeId }

/-- Model of `deleteNode` from `src/hooks/useMindmapEditor.ts`.  The source
inlines the same fixpoint loop as `getDescendantIds`, seeded with `nodeId`. -/
def deleteNode (snapId now nodeId : String) (s : EditorState) : EditorState :=
  if nodeId = "root" then s
  else
    let descendants := getDescendantIds s.document.nodes nodeId
    let nextNodes := s.document.nodes.filter (fun n => n.id ∉ descendants)
    let nextDocument := withUpdatedTimestamp now { s.document with nodes := nextNodes }
    let historyState := pushHistory snapId now s nextDocument
    { s with
      history := historyState.1
      historyIndex := historyState.2
      document := nextDocument
      selectedNodeId := some "root"
      collapsedNodeIds := s.collapsedNodeIds.filter (fun id => id ∉ descendants) }

/-- Default snapshot used to model an (unreachable) out-of-range history
access in `undo`; the hook always keeps `historyIndex` within range. -/
def defaultSnapshot : MindmapSnapshot :=
  { id := "", createdAtIso := "", nodes := [], edges := [], source := .manual }

/-- Model of `undo` from `src/hooks/useMindmapEditor.ts`. -/
def undo (s : EditorState) : EditorState :=
  if s.historyIndex = 0 then s
  else
    let nextIndex := s.historyIndex - 1
    let snapshot := s.history.getD nextIndex defaultSnapshot
    { s with
      historyIndex := nextIndex
      document := { s.document with
        nodes := cloneNodes snapshot.nodes
        edges := snapshot.edges
        updatedAtIso := snapshot.createdAtIso }
      collapsedNodeIds := [] }

/-- Model of the initial state of `useMindmapEditor` (`useState` initializer):
an empty mindmap and a one-snapshot history. -/
def initialEditorState (snapId now : String) : EditorState :=
  let doc := createEmptyMindmap "local-default" "Main Topic" now
  { document := doc
    selectedNodeId := some "root"
    collapsedNodeIds := []
    history := [createSnapshot snapId now doc .manual]
    historyIndex := 0 }

/-- Declarative characterisation of the descendant-closure loop: `Descends
nodes start y` holds when the id `y` is collected by repeatedly adding
`node.id` for nodes whose (truthy, i.e. non-null non-empty) `parentId` was
already collected, starting from `start`.  This is the least fixpoint that
the loop in `getDescendantIds` computes (`mem_getDescendantIds_iff`). -/
inductive Descends (nodes : List MindmapNode) (start : String) : String → Prop where
  | refl : Descends nodes start start
  | step {p : String} (n : MindmapNode) (hn : n ∈ nodes) (hp : n.parentId = some p)
      (hne : p ≠ "") (h : Descends nodes start p) : Descends nodes start n.id

/-- List of node ids of a document. -/
def nodeIds (nodes : List MindmapNode) : List String := nodes.map (fun n => n.id)

/-- Spec 3 invariant "no orphans": every node of the document is reachable
from the root by following `parentId` links, where reachability is the
descendant closure of `"root"` (the same closure routine the code uses). -/
def NoOrphans (nodes : List MindmapNode) : Prop :=
  ∀ n ∈ nodes, Descends nodes "root" n.id

/-- Executable form of `NoOrphans`, via the code's closure routine. -/
def noOrphansB (nodes : List MindmapNode) : Bool :=
  nodes.all (fun n => n.id ∈ getDescendantIds nodes "root")

/-- A well-formed document in the sense of spec 3: node ids are unique and
non-empty, and every parent reference is a non-empty id of the document. -/
def WellFormed (nodes : List MindmapNode) : Prop :=
  (nodeIds nodes).Nodup ∧
  (∀ n ∈ nodes, n.id ≠ "") ∧
  (∀ n ∈ nodes, ∀ p, n.parentId = some p → p ≠ "" ∧ p ∈ nodeIds nodes) ∧
  NoOrphans nodes

/-- Executable form of `WellFormed`. -/
def wellFormedB (nodes : List MindmapNode) : Bool :=
  (nodeIds nodes).Nodup ∧
  (nodes.all fun n => n.id ≠ "") ∧
  (nodes.all fun n => match n.parentId with
    | none => true
    | some p => p ≠ "" ∧ p ∈ nodeIds nodes) ∧
  noOrphansB nodes

/-- History-stack consistency invariant maintained by the hook: the snapshot
at the current history index captures the live document's node and edge
arrays.  It holds for the initial state and is preserved by every operation
and by undo/redo. -/
def historyConsistent (s : EditorState) : Prop :=
  s.historyIndex < s.history.length ∧
  (s.history.getD s.historyIndex defaultSnapshot).nodes = s.document.nodes ∧
  (s.history.getD s.historyIndex defaultSnapshot).edges = s.document.edges

/-- The five structural operations of the tree document model (spec 4.1),
with their effect parameters. -/
inductive EditOp where
  | addChild (freshId snapId now parentId : String)
  | addSibling (freshId snapId now nodeId : String)
  | rename (snapId now nodeId title : String)
  | delete (snapId now nodeId : String)
  | move (snapId now nodeId nextParentId : String) (nextIndex : Int)

/-- Dispatch an `EditOp` to the corresponding editor operation. -/
def applyEditOp (op : EditOp) (s : EditorState) : EditorState :=
  match op with
  | .addChild freshId snapId now parentId => addChildNode freshId snapId now parentId s
  | .addSibling freshId snapId now nodeId => addSiblingNode freshId snapId now nodeId s
  | .rename snapId now nodeId title => renameNode snapId now nodeId title s
  | .delete snapId now nodeId => deleteNode snapId now nodeId s
  | .move snapId now nodeId nextParentId nextIndex =>
    moveNode snapId now nodeId nextParentId nextIndex s

/-- An initial editor state used in concrete scenarios. -/
def demoState0 : EditorState := initialEditorState "snap0" "t0"

/-- Root with one child `a`. -/
def demoStateA : EditorState := addChildNode "a" "snap1" "t1" "root" demoState0

/-- Root with child `a`, which has child `b`. -/
def demoStateAB : EditorState := addChildNode "b" "snap2" "t2" "a" demoStateA

/-- Scenario of spec 8: first `addChild(root)`. -/
def twoChildState1 : EditorState := addChildNode "n1" "snap1" "t1" "root" demoState0

/-- Scenario of spec 8: second `addChild(root)`. -/
def twoChildState2 : EditorState := addChildNode "n2" "snap2" "t2" "root" twoChildState1

/-- Scenario of spec 8: `moveNode(N2, root, 0)`. -/
def reorderedState : EditorState := moveNode "snap3" "t3" "n2" "root" 0 twoChildState2

/-- A state with a non-trivial collapsed-set, for frame-effect scenarios. -/
def collapsedDemoState : EditorState :=
  { demoStateAB with collapsedNodeIds := ["a", "b"] }

/-- Document whose second node has the empty string as id; every node is
reachable from the root, yet `addChild` on the empty id orphans the new
node because the closure loop treats an empty `parentId` as falsy. -/
def emptyIdDoc : MindmapDocument :=
  { id := "doc", title := "T",
    nodes := [{ id := "root", title := "T", parentId := none, order := 0 },
              { id := "", title := "E", parentId := some "root", order := 0 }],
    edges := [], updatedAtIso := "t0" }

/-- Editor state carrying `emptyIdDoc`. -/
def emptyIdState : EditorState :=
  { document := emptyIdDoc, selectedNodeId := some "root", collapsedNodeIds := [],
    history := [createSnapshot "snap0" "t0" emptyIdDoc .manual], historyIndex := 0 }

/-- Model of `s.startsWith(pre)` (structural, kernel-evaluable). -/
def jsStartsWith (s pre : String) : Bool :=
  s.data.take pre.data.length == pre.data

/-- Model of `s.slice(0, n)`; JS counts UTF-16 units, this model counts code
points — they agree on all inputs in this development. -/
def jsSlice (s : String) (n : Nat) : String := ⟨s.data.take n⟩

/-- JSON string literal builder, exact for strings without characters that
`JSON.stringify` escapes (all strings appearing in this development). -/
def jsonString (s : String) : String := "\"" ++ s ++ "\""

/-- JSON rendering of a nullable string field. -/
def jsonOptString (p : Option String) : String :=
  match p with
  | none => "null"
  | some p => jsonString p

/-- JSON object for one node as produced by `createDocumentSignature`. -/
def jsonNode (n : MindmapNode) : String :=
  "\x7b\"id\":" ++ jsonString n.id ++ ",\"title\":" ++ jsonString n.title ++
    ",\"parentId\":" ++ jsonOptString n.parentId ++ ",\"order\":" ++ toString n.order ++ "\x7d"

/-- JSON object for one edge as produced by `createDocumentSignature`. -/
def jsonEdge (e : MindmapEdge) : String :=
  "\x7b\"id\":" ++ jsonString e.id ++ ",\"fromNodeId\":" ++ jsonString e.fromNodeId ++
    ",\"toNodeId\":" ++ jsonString e.toNodeId ++ "\x7d"

/-- Model of `createDocumentSignature` from `src/utils/mindmapExport.ts`:
the `JSON.stringify` of title plus identity fields of nodes and edges. -/
def createDocumentSignature (document : MindmapDocument) : String :=
  "\x7b\"title\":" ++ jsonString document.title ++ ",\"nodes\":[" ++
    String.intercalate "," (document.nodes.map jsonNode) ++ "],\"edges\":[" ++
    String.intercalate "," (document.edges.map jsonEdge) ++ "]\x7d"

/-- Header row of a graph sheet (`ROW_HEADERS` of
`src/services/googleSheets/client.ts`). -/
def ROW_HEADERS : List String :=
  ["kind", "id", "title", "parentId", "order", "fromNodeId", "toNodeId"]

/-- Model of `buildGraphRows` from `src/services/googleSheets/client.ts`. -/
def buildGraphRows (document : MindmapDocument) : List (List String) :=
  (ROW_HEADERS :: document.nodes.map (fun n =>
    ["node", n.id, n.title, n.parentId.getD "", toString n.order, "", ""])) ++
    document.edges.map (fun e => ["edge", e.id, "", "", "", e.fromNodeId, e.toNodeId])

/-- Model of `ensureRootNode` from `src/services/googleSheets/client.ts`. -/
def ensureRootNode (document : MindmapDocument) : MindmapDocument :=
  if document.nodes.any (fun n => n.id = "root") then document
  else
    { document with nodes :=
        { id := "root", title := document.title, parentId := none, order := 0 } ::
          document.nodes }

/-- Model of `toSheetTitle`; the source throws `"Graph name is required."`
for a blank name, modelled as `Except.error`. -/
def toSheetTitle (raw : String) : Except String String :=
  let trimmed := jsTrim raw
  if trimmed = "" then .error "Graph name is required."
  else .ok (jsSlice trimmed 80)

/-- Model of `buildHistoryPayload` from
`src/services/googleSheets/client.ts`. -/
def buildHistoryPayload (snapshot : Option MindmapSnapshot) : String :=
  match snapshot with
  | none => ""
  | some s =>
    "\x7b\"id\":" ++ jsonString s.id ++ ",\"createdAtIso\":" ++
      jsonString s.createdAtIso ++ ",\"source\":" ++
      jsonString (match s.source with
        | .manual => "manual"
        | .imported => "import"
        | .sync => "sync") ++
      ",\"nodeCount\":" ++ toString s.nodes.length ++
      ",\"edgeCount\":" ++ toString s.edges.length ++ "\x7d"

/-- State of the remote spreadsheet that `saveMindmap` writes: the graph
sheet rows, the Meta rows, and the Drive app-properties flag. -/
structure SheetStore where
  graphRows : List (List String)
  metaRows : List (List String)
  appPropsFlag : Bool
deriving DecidableEq

/-- The input record of `saveMindmap` (`SaveMindmapInput`); EditorShell
passes `expectedRemoteUpdatedAtIso` as the expected remote version token. -/
structure SaveMindmapInput where
  spreadsheetId : String
  sheetTitle : String
  document : MindmapDocument
  snapshot : Option MindmapSnapshot
  expectedRemoteUpdatedAtIso : Option String
deriving DecidableEq

/-- The object the save promise resolves with: `saveMindmap` returns
`\x7b updatedAtIso: nowIso \x7d`.  The field is optional because the
autosave handler reads it through the truthy chain
`saveResult.updatedAtIso || remoteUpdatedAtRef.current`, which must also be
modelled for an `undefined` field. -/
structure SaveResultValue where
  updatedAtIso : Option String
deriving DecidableEq

/-- Outcome of the save network call as observed by the autosave handler:
`resolved (some v)` a promise resolved with the object `v`, `resolved none`
a promise resolved with `undefined`, `rejected msg` a thrown error with
message `msg`.  The handler model `settleAutosave` covers every settlement
even though the client only produces `resolved (some v)` and
`rejected msg`. -/
inductive SaveOutcome where
  | resolved (value : Option SaveResultValue)
  | rejected (message : String)
deriving DecidableEq

/-- Replace-or-append update of the Meta key/value map, mirroring JS object
assignment `map[key] = value` (an existing key keeps its position, a new key
is appended). -/
def metaUpsert (m : List (String × String)) (k v : String) : List (String × String) :=
  if m.any (fun kv => kv.1 = k) then m.map (fun kv => if kv.1 = k then (k, v) else kv)
  else m ++ [(k, v)]

/-- Key lookup in the Meta key/value map (`metaMap[key]`); `none` models
`undefined`. -/
def metaLookup (m : List (String × String)) (k : String) : Option String :=
  (m.find? (fun kv => kv.1 == k)).map (fun kv => kv.2)

/-- Model of `readMetaMap` from the client: each Meta row contributes
`(row[0] || "").trim()` as key (blank keys skipped) and `row[1] || ""` as
value, a later row overwriting an earlier one with the same key. -/
def metaEntries (rows : List (List String)) : List (String × String) :=
  rows.foldl (fun m row =>
    let key := jsTrim (row.getD 0 "")
    if key = "" then m else metaUpsert m key (row.getD 1 "")) []

/-- Model of `writeMetaMap`: the entries sorted by key (`localeCompare`,
modelled by code-point order) written back as two-cell rows. -/
def writeMetaRows (m : List (String × String)) : List (List String) :=
  (List.insertionSort (fun a b : String × String => a.1 ≤ b.1) m).map
    (fun kv => [kv.1, kv.2])

/-- The JS truthy chain `v || fallback` on a possibly-undefined string. -/
def jsOrString (v : Option String) (fallback : String) : String :=
  match v with
  | some s => if s = "" then fallback else s
  | none => fallback

/-- The remote version token `saveMindmap` checks against:
`metaMap["updatedAtIso:" + title] || metaMap.updatedAtIso || ""`. -/
def remoteUpdatedAtOf (store : SheetStore) (title : String) : String :=
  let metaMap := metaEntries store.metaRows
  jsOrString (metaLookup metaMap ("updatedAtIso:" ++ title))
    (jsOrString (metaLookup metaMap "updatedAtIso") "")

/-- The message of the conflict error `saveMindmap` throws. -/
def syncConflictMessage : String :=
  "SYNC_CONFLICT: Remote graph changed. Reload latest graph before saving."

/-- Model of the repository's current `saveMindmap` (the Google Sheets
client): resolves the sheet title, reads the Meta map and compares
`expectedRemoteUpdatedAtIso` against the remote `updatedAtIso` token —
throwing the `SYNC_CONFLICT` error and leaving the store untouched when
both tokens are truthy and differ — and otherwise rewrites the graph rows,
updates the Meta map (timestamping both `updatedAtIso` keys with `nowIso`),
re-sets the app properties and resolves with `\x7b updatedAtIso: nowIso \x7d`.
The transient `__meta_written_by` marker row is overwritten by the
subsequent `writeMetaMap`, so it does not appear in the final store. -/
def saveMindmap (projectId now : String) (store : SheetStore) (input : SaveMindmapInput) :
    SaveOutcome × SheetStore :=
  match toSheetTitle input.sheetTitle with
  | .error msg => (.rejected msg, store)
  | .ok title =>
    let remoteUpdatedAtIso := remoteUpdatedAtOf store title
    let conflict : Bool :=
      match input.expectedRemoteUpdatedAtIso with
      | none => false
      | some e => decide (e ≠ "") && decide (remoteUpdatedAtIso ≠ "") &&
          decide (e ≠ remoteUpdatedAtIso)
    if conflict then (.rejected syncConflictMessage, store)
    else
      let normalized := ensureRootNode { input.document with title := title }
      let payload := buildHistoryPayload input.snapshot
      let metaMap := metaEntries store.metaRows
      let metaMap2 :=
        metaUpsert (metaUpsert (metaUpsert (metaUpsert (metaUpsert (metaUpsert (metaUpsert
          metaMap "projectId" projectId) "app" "react-mind") "updatedAtIso" now)
          "activeGraph" title) "lastSave" payload) ("updatedAtIso:" ++ title) now)
          ("lastSave:" ++ title) payload
      (.resolved (some { updatedAtIso := some now }),
        { graphRows := buildGraphRows normalized
          metaRows := writeMetaRows metaMap2
          appPropsFlag := true })

/-- The debounce delay of the autosave effect (`AUTOSAVE_DELAY_MS` in
`src/components/EditorShell.tsx`); in the trace model below, a
`fireAutosaveTimer` step stands for this delay elapsing with no further
effect run. -/
def AUTOSAVE_DELAY_MS : Nat := 800

/-- A scheduled debounce timer: the closure state captured by the
`setTimeout` callback in the autosave effect. -/
structure PendingSave where
  requestVersion : Nat
  payload : MindmapDocument
  signature : String
deriving DecidableEq

/-- The autosave-relevant state of `EditorShell`: the refs
(`lastSavedSignatureRef`, `remoteUpdatedAtRef`, `autosaveVersionRef`,
`saveInFlightRef`, `saveQueuedRef`, `autosaveTimerRef`) and the React state
(`hasSyncConflict`, `isAutoSaving`, `syncStatus`, `syncError`,
`saveTrigger`), plus a ghost log `savesIssued` of the network save calls
issued. -/
structure PipelineState where
  lastSavedSignature : String
  remoteUpdatedAt : String
  autosaveVersion : Nat
  saveInFlight : Bool
  saveQueued : Bool
  hasSyncConflict : Bool
  isAutoSaving : Bool
  syncStatus : String
  syncError : String
  saveTrigger : Nat
  timer : Option PendingSave
  savesIssued : List MindmapDocument
deriving DecidableEq

/-- Model of `isSyncConflictError` from `src/components/EditorShell.tsx`. -/
def isSyncConflictError (message : String) : Bool :=
  jsStartsWith message "SYNC_CONFLICT:"

/-- Model of one run of the autosave effect body (EditorShell lines
585-687), preceded by the cleanup of the previous run (which clears any
pending debounce timer).  `canEditGraph` folds in the
authorized/spreadsheet/sheet/loaded conditions, which `canEditGraph`
already conjoins in the source. -/
def runAutosaveEffect (canEditGraph : Bool) (sheetTitle : String) (doc : MindmapDocument)
    (st0 : PipelineState) : PipelineState :=
  let st := { st0 with timer := none }
  if !canEditGraph then { st with isAutoSaving := false }
  else if st.hasSyncConflict then
    { st with
        isAutoSaving := false
        syncStatus := "conflict detected" }
  else
    let documentForSave := { doc with title := sheetTitle }
    let signature := createDocumentSignature documentForSave
    if signature = st.lastSavedSignature then { st with isAutoSaving := false }
    else if st.saveInFlight then
      { st with
      saveQueued := true
      syncStatus := "auto-saving..."
      isAutoSaving := true }
    else
      let requestVersion := st.autosaveVersion + 1
      { st with
        syncStatus := "auto-saving..."
        isAutoSaving := true
        autosaveVersion := requestVersion
        timer := some { requestVersion := requestVersion, payload := documentForSave,
                        signature := signature } }

/-- Model of the debounce timer firing after `AUTOSAVE_DELAY_MS` of
quiescence: the callback marks the save in flight and issues the network
call with the captured payload. -/
def fireAutosaveTimer (st : PipelineState) : PipelineState × Option PendingSave :=
  match st.timer with
  | none => (st, none)
  | some t =>
    ({ st with
        timer := none
        saveInFlight := true
        savesIssued := st.savesIssued ++ [t.payload] }, some t)

/-- Message of the TypeError raised when the handler reads
`saveResult.updatedAtIso` from a promise that resolved with `undefined`. -/
def typeErrorUpdatedAtIso : String :=
  "Cannot read properties of undefined (reading updatedAtIso)"

/-- Model of the settlement handler of the autosave network call: the
`try`/`catch`/`finally` after the `await` (EditorShell lines 629-670), with
the closure-captured `requestVersion`/`signature` in `t`.  A promise that
resolved with `undefined` triggers the TypeError on reading
`updatedAtIso` after `lastSavedSignature` was already updated; the catch
block then records a generic (non-conflict) error. -/
def settleAutosave (t : PendingSave) (outcome : SaveOutcome) (st : PipelineState) :
    PipelineState :=
  let tryResult : PipelineState × Bool :=
    match outcome with
    | .resolved value =>
      if t.requestVersion ≠ st.autosaveVersion then (st, false)
      else
        let st1 := { st with lastSavedSignature := t.signature }
        match value with
        | some v =>
          let st2 := { st1 with remoteUpdatedAt :=
            match v.updatedAtIso with
            | some tok => if tok = "" then st1.remoteUpdatedAt else tok
            | none => st1.remoteUpdatedAt }
          ({ st2 with
              hasSyncConflict := false
              syncStatus := "auto-saved" }, false)
        | none =>
          ({ st1 with syncStatus := "error", syncError := typeErrorUpdatedAtIso }, false)
    | .rejected message =>
      if t.requestVersion ≠ st.autosaveVersion then (st, false)
      else if isSyncConflictError message then
        ({ st with
            hasSyncConflict := true
            saveQueued := false
            syncError := "Remote graph changed. Please reload remote before continuing edits."
            syncStatus := "conflict detected" }, true)
      else
        ({ st with
            syncError := message
            syncStatus := "error" }, false)
  let st2 := { tryResult.1 with saveInFlight := false }
  let shouldRunQueuedSave := st2.saveQueued
  let st3 := { st2 with
    saveQueued := false
    isAutoSaving := false }
  if shouldRunQueuedSave && !tryResult.2 then { st3 with saveTrigger := st3.saveTrigger + 1 }
  else st3

/-- Model of `invalidateAutosavePipeline` (EditorShell lines 152-161). -/
def invalidateAutosavePipeline (st : PipelineState) : PipelineState :=
  { st with
    autosaveVersion := st.autosaveVersion + 1
    saveInFlight := false
    saveQueued := false
    timer := none
    isAutoSaving := false }

/-- A clean pipeline state used in concrete scenarios. -/
def demoPipeline0 : PipelineState :=
  { lastSavedSignature := ""
    remoteUpdatedAt := ""
    autosaveVersion := 0
    saveInFlight := false
    saveQueued := false
    hasSyncConflict := false
    isAutoSaving := false
    syncStatus := "idle"
    syncError := ""
    saveTrigger := 0
    timer := none
    savesIssued := [] }

/-- Version token under which the document was loaded in the C1 scenario. -/
def conflictBaselineToken : String := "2026-01-01T00:00:00.000Z"

/-- Version token the store has moved to out-of-band in the C1 scenario. -/
def conflictRemoteToken : String := "2026-01-02T09:00:00.000Z"

/-- Store state whose Meta `updatedAtIso` token has changed out-of-band to
`conflictRemoteToken` since the document was loaded. -/
def conflictStore0 : SheetStore :=
  { graphRows := buildGraphRows (createEmptyMindmap "sheet1" "Graph 1" conflictRemoteToken)
    metaRows := [["projectId", "proj"], ["app", "react-mind"],
      ["updatedAtIso", conflictRemoteToken], ["activeGraph", "Graph 1"], ["lastSave", ""]]
    appPropsFlag := true }

/-- Pipeline state after loading under `conflictBaselineToken` and before
the local edit: the saved signature is that of the loaded root-only
document. -/
def conflictPipeline0 : PipelineState :=
  { demoPipeline0 with
    lastSavedSignature := createDocumentSignature { demoState0.document with title := "Graph 1" }
    remoteUpdatedAt := conflictBaselineToken }

/-- Pipeline state after the edit (a child was added) re-runs the autosave
effect and schedules the debounce timer. -/
def conflictSt1 : PipelineState :=
  runAutosaveEffect true "Graph 1" demoStateA.document conflictPipeline0

/-- The debounce timer the effect run scheduled in the C1 scenario (the
`getD` default is never reached: the effect run does schedule a timer). -/
def conflictTimer : PendingSave :=
  conflictSt1.timer.getD { requestVersion := 0, payload := demoStateA.document, signature := "" }

/-- The input of the network save call the fired timer issues in the C1
scenario, carrying the expected version token read from
`remoteUpdatedAtRef` (passed as `remoteUpdatedAtRef.current || undefined`). -/
def conflictInput : SaveMindmapInput :=
  { spreadsheetId := "sheet1"
    sheetTitle := "Graph 1"
    document := conflictTimer.payload
    snapshot := none
    expectedRemoteUpdatedAtIso :=
      if conflictSt1.remoteUpdatedAt = "" then none else some conflictSt1.remoteUpdatedAt }

/-- Pipeline state right after the debounce timer fires and the save call
is issued in the C1 scenario. -/
def conflictSt2 : PipelineState := (fireAutosaveTimer conflictSt1).1

/-! Theory of the descendant-closure loop. -/

theorem descStep_cases (n : MindmapNode) (acc : List String) :
    descStep n acc = acc ∨
      (descStep n acc = acc ++ [n.id] ∧
        ∃ p, n.parentId = some p ∧ p ≠ "" ∧ p ∈ acc ∧ n.id ∉ acc) := by
  cases hp : n.parentId with
  | none => exact Or.inl (by simp only [descStep, hp])
  | some p =>
    by_cases hc : p ≠ "" ∧ p ∈ acc ∧ n.id ∉ acc
    · refine Or.inr ⟨?_, p, rfl, hc⟩
      simp only [descStep, hp]
      rw [if_pos hc]
    · refine Or.inl ?_
      simp only [descStep, hp]
      rw [if_neg hc]

theorem subset_descStep (n : MindmapNode) (acc : List String) : acc ⊆ descStep n acc := by
  rcases descStep_cases n acc with h | ⟨h, _⟩ <;> rw [h]
  · exact List.Subset.refl acc
  · exact List.subset_append_left _ _

theorem descStep_self_mem (n : MindmapNode) (acc : List String) (p : String)
    (hp : n.parentId = some p) (hne : p ≠ "") (hin : p ∈ acc) :
    n.id ∈ descStep n acc := by
  simp only [descStep, hp]
  by_cases hc : p ≠ "" ∧ p ∈ acc ∧ n.id ∉ acc
  · rw [if_pos hc]
    simp
  · rw [if_neg hc]
    by_contra hcon
    exact hc ⟨hne, hin, hcon⟩

theorem descPass_append (nodes : List MindmapNode) (acc : List String) :
    ∃ ext, descPass nodes acc = acc ++ ext := by
  induction nodes generalizing acc with
  | nil => exact ⟨[], by simp [descPass]⟩
  | cons n rest ih =>
    show ∃ ext, descPass rest (descStep n acc) = acc ++ ext
    rcases descStep_cases n acc with h | ⟨h, _⟩ <;> rw [h]
    · exact ih acc
    · obtain ⟨ext, hext⟩ := ih (acc ++ [n.id])
      exact ⟨n.id :: ext, by simpa using hext⟩

theorem subset_descPass (nodes : List MindmapNode) (acc : List String) :
    acc ⊆ descPass nodes acc := by
  obtain ⟨ext, hext⟩ := descPass_append nodes acc
  rw [hext]
  exact List.subset_append_left acc ext

theorem mem_descPass_src (nodes : List MindmapNode) :
    ∀ (acc : List String) (y : String),
      y ∈ descPass nodes acc → y ∈ acc ∨ ∃ n ∈ nodes, y = n.id := by
  induction nodes with
  | nil => exact fun acc y h => Or.inl h
  | cons n rest ih =>
    intro acc y h
    rcases ih (descStep n acc) y h with h | ⟨m, hm, hy⟩
    · rcases descStep_cases n acc with hs | ⟨hs, _⟩ <;> rw [hs] at h
      · exact Or.inl h
      · rcases List.mem_append.1 h with h | h
        · exact Or.inl h
        · exact Or.inr ⟨n, List.mem_cons_self n rest, by simpa using h⟩
    · exact Or.inr ⟨m, List.mem_cons_of_mem _ hm, hy⟩

theorem descPass_nodup (nodes : List MindmapNode) :
    ∀ acc : List String, acc.Nodup → (descPass nodes acc).Nodup := by
  induction nodes with
  | nil => exact fun _ h => h
  | cons n rest ih =>
    intro acc h
    refine ih (descStep n acc) ?_
    rcases descStep_cases n acc with hs | ⟨hs, _, _, _, _, hnin⟩ <;> rw [hs]
    · exact h
    · simpa [List.nodup_append] using ⟨h, hnin⟩

theorem descPass_closed (n : MindmapNode) (p : String) (hp : n.parentId = some p)
    (hne : p ≠ "") :
    ∀ (nodes : List MindmapNode) (acc : List String), n ∈ nodes → p ∈ acc →
      n.id ∈ descPass nodes acc := by
  intro nodes
  induction nodes with
  | nil => intro acc hn _; cases hn
  | cons m rest ih =>
    intro acc hn hin
    show n.id ∈ descPass rest (descStep m acc)
    rcases List.mem_cons.1 hn with rfl | hn
    · exact subset_descPass rest _ (descStep_self_mem n acc p hp hne hin)
    · exact ih (descStep m acc) hn (subset_descStep m acc hin)

theorem descPass_sound (big : List MindmapNode) (r : String) :
    ∀ (nodes : List MindmapNode) (acc : List String), (∀ n ∈ nodes, n ∈ big) →
      (∀ y ∈ acc, Descends big r y) → ∀ y ∈ descPass nodes acc, Descends big r y := by
  intro nodes
  induction nodes with
  | nil => exact fun acc _ hacc => hacc
  | cons n rest ih =>
    intro acc hsub hacc y hy
    refine ih (descStep n acc) (fun m hm => hsub m (List.mem_cons_of_mem _ hm)) ?_ y hy
    intro z hz
    rcases descStep_cases n acc with hs | ⟨hs, p, hp, hne, hpin, _⟩ <;> rw [hs] at hz
    · exact hacc z hz
    · rcases List.mem_append.1 hz with hz | hz
      · exact hacc z hz
      · have hz : z = n.id := by simpa using hz
        subst hz
        exact .step n (hsub n (List.mem_cons_self n rest)) hp hne (hacc p hpin)

theorem descIterate_sound (nodes : List MindmapNode) (r : String) :
    ∀ (fuel : Nat) (acc : List String), (∀ y ∈ acc, Descends nodes r y) →
      ∀ y ∈ descIterate nodes fuel acc, Descends nodes r y := by
  intro fuel
  induction fuel with
  | zero => exact fun acc hacc => hacc
  | succ k ih =>
    intro acc hacc
    exact ih _ (descPass_sound nodes r nodes acc (fun _ h => h) hacc)

theorem subset_descIterate (nodes : List MindmapNode) :
    ∀ (fuel : Nat) (acc : List String), acc ⊆ descIterate nodes fuel acc := by
  intro fuel
  induction fuel with
  | zero => exact fun acc => List.Subset.refl acc
  | succ k ih =>
    intro acc
    exact (subset_descPass nodes acc).trans (ih (descPass nodes acc))

theorem descIterate_nodup (nodes : List MindmapNode) :
    ∀ (fuel : Nat) (acc : List String), acc.Nodup → (descIterate nodes fuel acc).Nodup := by
  intro fuel
  induction fuel with
  | zero => exact fun acc h => h
  | succ k ih => exact fun acc h => ih _ (descPass_nodup nodes acc h)

theorem mem_descIterate_src (nodes : List MindmapNode) :
    ∀ (fuel : Nat) (acc : List String) (y : String), y ∈ descIterate nodes fuel acc →
      y ∈ acc ∨ ∃ n ∈ nodes, y = n.id := by
  intro fuel
  induction fuel with
  | zero => exact fun acc y h => Or.inl h
  | succ k ih =>
    intro acc y h
    rcases ih _ y h with h | h
    · exact mem_descPass_src nodes acc y h
    · exact Or.inr h

theorem descIterate_of_stable (nodes : List MindmapNode) (acc : List String)
    (h : descPass nodes acc = acc) :
    ∀ fuel, descIterate nodes fuel acc = acc := by
  intro fuel
  induction fuel with
  | zero => rfl
  | succ k ih => simpa [descIterate, h] using ih

theorem nodup_subset_length_le {l m : List String} (hl : l.Nodup) (hsub : l ⊆ m) :
    l.length ≤ m.length := by
  calc l.length = l.toFinset.card := (List.toFinset_card_of_nodup hl).symm
    _ ≤ m.toFinset.card := by
        refine Finset.card_le_card ?_
        intro a ha
        rw [List.mem_toFinset] at ha ⊢
        exact hsub ha
    _ ≤ m.length := List.toFinset_card_le m

theorem descIterate_reaches_fix (nodes : List MindmapNode) (r : String) :
    ∀ (fuel : Nat) (acc : List String), acc.Nodup →
      (∀ y ∈ acc, y = r ∨ ∃ n ∈ nodes, y = n.id) →
      nodes.length + 1 ≤ fuel + acc.length →
      descPass nodes (descIterate nodes fuel acc) = descIterate nodes fuel acc := by
  intro fuel
  induction fuel with
  | zero =>
    intro acc hnd hsrc hbound
    by_contra hne
    obtain ⟨ext, hext⟩ := descPass_append nodes acc
    have hextne : ext ≠ [] := by
      intro h
      exact hne (by simpa [descIterate, h] using hext)
    have hlen : acc.length + 1 ≤ (descPass nodes acc).length := by
      rw [hext, List.length_append]
      have : 1 ≤ ext.length := by
        cases ext with
        | nil => exact absurd rfl hextne
        | cons a t => simp
      omega
    have hsubS : descPass nodes acc ⊆ r :: nodeIds nodes := by
      intro y hy
      rcases mem_descPass_src nodes acc y hy with hy | ⟨n, hn, hy⟩
      · rcases hsrc y hy with hy | ⟨n, hn, hy⟩
        · simp [hy]
        · exact List.mem_cons_of_mem _ (by exact hy ▸ List.mem_map_of_mem _ hn)
      · exact List.mem_cons_of_mem _ (by exact hy ▸ List.mem_map_of_mem _ hn)
    have hlen2 : (descPass nodes acc).length ≤ nodes.length + 1 := by
      have := nodup_subset_length_le (descPass_nodup nodes acc hnd) hsubS
      simpa [nodeIds, Nat.add_comm] using this
    simp only [descIterate] at hne
    omega
  | succ k ih =>
    intro acc hnd hsrc hbound
    by_cases hstable : descPass nodes acc = acc
    · have hk := descIterate_of_stable nodes acc hstable (k + 1)
      rw [hk]
      exact hstable
    · have hstep : descIterate nodes (k + 1) acc = descIterate nodes k (descPass nodes acc) := rfl
      rw [hstep]
      obtain ⟨ext, hext⟩ := descPass_append nodes acc
      have hextne : ext ≠ [] := fun h => hstable (by simpa [h] using hext)
      have hlen : acc.length + 1 ≤ (descPass nodes acc).length := by
        rw [hext, List.length_append]
        have : 1 ≤ ext.length := by
          cases ext with
          | nil => exact absurd rfl hextne
          | cons a t => simp
        omega
      refine ih (descPass nodes acc) (descPass_nodup nodes acc hnd) ?_ (by omega)
      intro y hy
      rcases mem_descPass_src nodes acc y hy with hy | hy
      · exact hsrc y hy
      · exact Or.inr hy

theorem descPass_getDescendantIds (nodes : List MindmapNode) (r : String) :
    descPass nodes (getDescendantIds nodes r) = getDescendantIds nodes r := by
  refine descIterate_reaches_fix nodes r (nodes.length + 1) [r] (by simp) ?_ (by simp)
  intro y hy
  exact Or.inl (by simpa using hy)

theorem start_mem_getDescendantIds (nodes : List MindmapNode) (r : String) :
    r ∈ getDescendantIds nodes r :=
  subset_descIterate nodes (nodes.length + 1) [r] (by simp)

theorem getDescendantIds_complete (nodes : List MindmapNode) (r y : String)
    (h : Descends nodes r y) : y ∈ getDescendantIds nodes r := by
  induction h with
  | refl => exact start_mem_getDescendantIds nodes r
  | step n hn hp hne _ ih =>
    have := descPass_closed n _ hp hne nodes (getDescendantIds nodes r) hn ih
    rwa [descPass_getDescendantIds] at this

theorem getDescendantIds_sound (nodes : List MindmapNode) (r y : String)
    (h : y ∈ getDescendantIds nodes r) : Descends nodes r y := by
  refine descIterate_sound nodes r (nodes.length + 1) [r] ?_ y h
  intro z hz
  have hz : z = r := by simpa using hz
  exact hz ▸ .refl

theorem mem_getDescendantIds_iff (nodes : List MindmapNode) (r y : String) :
    y ∈ getDescendantIds nodes r ↔ Descends nodes r y :=
  ⟨getDescendantIds_sound nodes r y, getDescendantIds_complete nodes r y⟩

theorem getDescendantIds_nodup (nodes : List MindmapNode) (r : String) :
    (getDescendantIds nodes r).Nodup :=
  descIterate_nodup nodes (nodes.length + 1) [r] (by simp)

theorem mem_getDescendantIds_src (nodes : List MindmapNode) (r y : String)
    (h : y ∈ getDescendantIds nodes r) : y = r ∨ ∃ n ∈ nodes, y = n.id := by
  rcases mem_descIterate_src nodes (nodes.length + 1) [r] y h with h | h
  · exact Or.inl (by simpa using h)
  · exact Or.inr h

theorem noOrphansB_iff (nodes : List MindmapNode) :
    noOrphansB nodes = true ↔ NoOrphans nodes := by
  unfold noOrphansB NoOrphans
  rw [List.all_eq_true]
  constructor
  · intro h n hn
    have := h n hn
    rw [decide_eq_true_eq] at this
    exact getDescendantIds_sound _ _ _ this
  · intro h n hn
    rw [decide_eq_true_eq]
    exact getDescendantIds_complete _ _ _ (h n hn)

theorem wellFormedB_iff (nodes : List MindmapNode) :
    wellFormedB nodes = true ↔ WellFormed nodes := by
  unfold wellFormedB WellFormed
  simp only [Bool.and_eq_true, decide_eq_true_eq, List.all_eq_true]
  rw [noOrphansB_iff]
  constructor
  · refine fun h => ⟨h.1, fun n hn => h.2.1 n hn, fun n hn p hp => ?_, h.2.2.2⟩
    have := h.2.2.1 n hn
    rw [hp] at this
    simpa using this
  · refine fun h => ⟨h.1, fun n hn => h.2.1 n hn, fun n hn => ?_, h.2.2.2⟩
    cases hp : n.parentId with
    | none => simp
    | some p => simpa using h.2.2.1 n hn p hp

theorem Descends.transfer {L1 L2 : List MindmapNode} {r y : String}
    (hmap : ∀ m ∈ L1, ∃ m' ∈ L2, m'.id = m.id ∧ m'.parentId = m.parentId)
    (h : Descends L1 r y) : Descends L2 r y := by
  induction h with
  | refl => exact .refl
  | step n hn hp hne _ ih =>
    obtain ⟨m', hm', hid, hpar⟩ := hmap n hn
    exact hid ▸ .step m' hm' (hpar.trans hp) hne ih

theorem Descends.mono_append {L L2 : List MindmapNode} {r y : String}
    (h : Descends L r y) : Descends (L ++ L2) r y :=
  h.transfer (fun m hm => ⟨m, List.mem_append_left _ hm, rfl, rfl⟩)

theorem Descends.avoid {nodes : List MindmapNode} {r x y : String}
    (hy : Descends nodes r y) (hx : ¬ Descends nodes x y) :
    Descends (nodes.filter (fun n => n.id ∉ getDescendantIds nodes x)) r y := by
  induction hy with
  | refl => exact .refl
  | step n hn hp hne hrec ih =>
    rename_i p
    have hpx : ¬ Descends nodes x p := by
      intro hcon
      exact hx (.step n hn hp hne hcon)
    refine .step n ?_ hp hne (ih hpx)
    rw [List.mem_filter]
    refine ⟨hn, ?_⟩
    simp only [decide_eq_true_eq]
    rw [mem_getDescendantIds_iff]
    exact hx

/-! Basic facts about the editor operations. -/

theorem find?_id_eq {nodes : List MindmapNode} {x : String} {m : MindmapNode}
    (h : nodes.find? (fun n => n.id == x) = some m) : m ∈ nodes ∧ m.id = x :=
  ⟨List.mem_of_find?_eq_some h, by simpa using List.find?_some h⟩

theorem find?_id_none {nodes : List MindmapNode} {x : String}
    (h : ∀ n ∈ nodes, n.id ≠ x) : nodes.find? (fun n => n.id == x) = none :=
  List.find?_eq_none.2 fun n hn => by simpa using h n hn

theorem cloneNodes_eq (nodes : List MindmapNode) : cloneNodes nodes = nodes := by
  have : cloneNodes nodes = nodes.map id := rfl
  rw [this, List.map_id]

theorem pushHistory_fst (snapId now : String) (s : EditorState) (d : MindmapDocument) :
    (pushHistory snapId now s d).1 =
      s.history.take (s.historyIndex + 1) ++ [createSnapshot snapId now d .manual] := rfl

theorem pushHistory_snd (snapId now : String) (s : EditorState) (d : MindmapDocument)
    (h : s.historyIndex < s.history.length) :
    (pushHistory snapId now s d).2 = s.historyIndex + 1 := by
  unfold pushHistory
  simp only [List.length_append, List.length_take, List.length_cons, List.length_nil]
  omega

theorem pushHistory_length (snapId now : String) (s : EditorState) (d : MindmapDocument) :
    (pushHistory snapId now s d).1.length = (s.history.take (s.historyIndex + 1)).length + 1 := by
  unfold pushHistory
  simp

theorem moveNode_noop_of_descends (snapId now nodeId nextParentId : String) (nextIndex : Int)
    (s : EditorState) (h : Descends s.document.nodes nodeId nextParentId) :
    moveNode snapId now nodeId nextParentId nextIndex s = s := by
  unfold moveNode
  cases hfind : s.document.nodes.find? (fun n => n.id == nodeId) with
  | none => rfl
  | some movingNode =>
    simp only []
    have hid : movingNode.id = nodeId := (find?_id_eq hfind).2
    by_cases hroot : movingNode.id = "root"
    · rw [if_pos hroot]
    · rw [if_neg hroot]
      cases hfind2 : s.document.nodes.find? (fun n => n.id == nextParentId) with
      | none => rfl
      | some target =>
        simp only []
        have hmem : nextParentId ∈ getDescendantIds s.document.nodes movingNode.id := by
          rw [hid, mem_getDescendantIds_iff]
          exact h
        rw [if_pos hmem]

theorem renameNode_noop_of_blank (snapId now nodeId title : String) (s : EditorState)
    (h : jsTrim title = "") : renameNode snapId now nodeId title s = s := by
  unfold renameNode
  rw [if_pos h]

theorem addChildNode_noop_of_absent (freshId snapId now parentId : String) (s : EditorState)
    (h : ∀ n ∈ s.document.nodes, n.id ≠ parentId) :
    addChildNode freshId snapId now parentId s = s := by
  unfold addChildNode
  rw [find?_id_none h]

theorem renameNode_absent (snapId now nodeId title : String) (s : EditorState)
    (ht : jsTrim title ≠ "") (habs : ∀ n ∈ s.document.nodes, n.id ≠ nodeId) :
    (renameNode snapId now nodeId title s).document.nodes = s.document.nodes ∧
    (renameNode snapId now nodeId title s).document.updatedAtIso = now ∧
    (renameNode snapId now nodeId title s).history.length =
      (s.history.take (s.historyIndex + 1)).length + 1 := by
  have hmap : (s.document.nodes.map (fun n =>
      if n.id = nodeId then { n with title := jsTrim title } else n)) = s.document.nodes := by
    have h : ∀ n ∈ s.document.nodes,
        (if n.id = nodeId then { n with title := jsTrim title } else n) = id n := by
      intro n hn
      rw [if_neg (habs n hn)]
      rfl
    rw [List.map_congr_left h, List.map_id]
  unfold renameNode
  rw [if_neg ht]
  exact ⟨hmap, rfl, pushHistory_length snapId now s _⟩

theorem descPass_eq_self_of (nodes : List MindmapNode) :
    ∀ acc, (∀ n ∈ nodes, descStep n acc = acc) → descPass nodes acc = acc := by
  induction nodes with
  | nil => intro acc _; rfl
  | cons n rest ih =>
    intro acc h
    show descPass rest (descStep n acc) = acc
    rw [h n (List.mem_cons_self n rest)]
    exact ih acc fun m hm => h m (List.mem_cons_of_mem _ hm)

theorem getDescendantIds_singleton (nodes : List MindmapNode) (x : String)
    (h : ∀ n ∈ nodes, n.parentId ≠ some x) : getDescendantIds nodes x = [x] := by
  unfold getDescendantIds
  refine descIterate_of_stable nodes [x] ?_ _
  refine descPass_eq_self_of nodes [x] ?_
  intro n hn
  cases hp : n.parentId with
  | none => simp only [descStep, hp]
  | some p =>
    have hpx : p ∉ ([x] : List String) := by
      intro hmem
      have : p = x := by simpa using hmem
      exact h n hn (by rw [hp, this])
    simp only [descStep, hp]
    rw [if_neg (fun hc => hpx hc.2.1)]

theorem deleteNode_absent (snapId now nodeId : String) (s : EditorState)
    (hroot : nodeId ≠ "root")
    (habs : ∀ n ∈ s.document.nodes, n.id ≠ nodeId ∧ n.parentId ≠ some nodeId) :
    (deleteNode snapId now nodeId s).document.nodes = s.document.nodes ∧
    (deleteNode snapId now nodeId s).document.updatedAtIso = now ∧
    (deleteNode snapId now nodeId s).history.length =
      (s.history.take (s.historyIndex + 1)).length + 1 := by
  unfold deleteNode
  rw [if_neg hroot]
  have hdesc : getDescendantIds s.document.nodes nodeId = [nodeId] :=
    getDescendantIds_singleton _ _ fun n hn => (habs n hn).2
  have hfilter : (s.document.nodes.filter
      (fun n => n.id ∉ getDescendantIds s.document.nodes nodeId)) = s.document.nodes := by
    rw [hdesc]
    have : ∀ n ∈ s.document.nodes, (decide (n.id ∉ ([nodeId] : List String))) = true := by
      intro n hn
      simpa using (habs n hn).1
    calc s.document.nodes.filter (fun n => n.id ∉ ([nodeId] : List String))
        = s.document.nodes.filter (fun _ => true) := List.filter_congr this
      _ = s.document.nodes := List.filter_true _
  exact ⟨hfilter, rfl, pushHistory_length snapId now s _⟩

theorem getD_pushHistory_prev (snapId now : String) (s : EditorState) (d : MindmapDocument)
    (h : s.historyIndex < s.history.length) :
    (pushHistory snapId now s d).1.getD s.historyIndex defaultSnapshot =
      s.history.getD s.historyIndex defaultSnapshot := by
  rw [pushHistory_fst]
  have hlt : s.historyIndex < (s.history.take (s.historyIndex + 1)).length := by
    simp only [List.length_take]
    omega
  rw [List.getD_eq_getElem?_getD, List.getD_eq_getElem?_getD,
    List.getElem?_append, if_pos hlt]
  congr 1
  rw [List.getElem?_take, if_pos (Nat.lt_succ_self _)]

theorem undo_after_pushHistory (s s' : EditorState) (snapId now : String) (d : MindmapDocument)
    (hc : historyConsistent s)
    (hh : s'.history = (pushHistory snapId now s d).1)
    (hi : s'.historyIndex = (pushHistory snapId now s d).2) :
    (undo s').document.nodes = s.document.nodes ∧
    (undo s').document.edges = s.document.edges ∧
    (undo s').document.id = s'.document.id ∧
    (undo s').document.title = s'.document.title ∧
    (undo s').historyIndex = s.historyIndex := by
  obtain ⟨hlt, hnodes, hedges⟩ := hc
  have hidx : s'.historyIndex = s.historyIndex + 1 := by
    rw [hi, pushHistory_snd snapId now s d hlt]
  have hne : ¬ s'.historyIndex = 0 := by omega
  unfold undo
  rw [if_neg hne]
  have hsnap : s'.history.getD (s'.historyIndex - 1) defaultSnapshot =
      s.history.getD s.historyIndex defaultSnapshot := by
    rw [hh, hidx]
    simpa using getD_pushHistory_prev snapId now s d hlt
  refine ⟨?_, ?_, rfl, rfl, ?_⟩
  · show cloneNodes (s'.history.getD (s'.historyIndex - 1) defaultSnapshot).nodes =
      s.document.nodes
    rw [cloneNodes_eq, hsnap]
    exact hnodes
  · show (s'.history.getD (s'.historyIndex - 1) defaultSnapshot).edges = s.document.edges
    rw [hsnap]
    exact hedges
  · show s'.historyIndex - 1 = s.historyIndex
    omega

theorem applyEditOp_shape (op : EditOp) (s : EditorState) :
    applyEditOp op s = s ∨
      ∃ snapId now d,
        (applyEditOp op s).history = (pushHistory snapId now s d).1 ∧
        (applyEditOp op s).historyIndex = (pushHistory snapId now s d).2 ∧
        (applyEditOp op s).document = d ∧
        d.id = s.document.id ∧ d.title = s.document.title := by
  cases op with
  | addChild freshId snapId now parentId =>
    simp only [applyEditOp]
    unfold addChildNode
    dsimp only
    split
    · exact Or.inl rfl
    · exact Or.inr ⟨snapId, now, _, rfl, rfl, rfl, rfl, rfl⟩
  | addSibling freshId snapId now nodeId =>
    simp only [applyEditOp]
    unfold addSiblingNode
    dsimp only
    split
    · exact Or.inl rfl
    · split
      · exact Or.inl rfl
      · exact Or.inr ⟨snapId, now, _, rfl, rfl, rfl, rfl, rfl⟩
  | rename snapId now nodeId title =>
    simp only [applyEditOp]
    unfold renameNode
    dsimp only
    split
    · exact Or.inl rfl
    · exact Or.inr ⟨snapId, now, _, rfl, rfl, rfl, rfl, rfl⟩
  | delete snapId now nodeId =>
    simp only [applyEditOp]
    unfold deleteNode
    dsimp only
    split
    · exact Or.inl rfl
    · exact Or.inr ⟨snapId, now, _, rfl, rfl, rfl, rfl, rfl⟩
  | move snapId now nodeId nextParentId nextIndex =>
    simp only [applyEditOp]
    unfold moveNode
    dsimp only
    split
    · exact Or.inl rfl
    · split
      · exact Or.inl rfl
      · split
        · exact Or.inl rfl
        · split
          · exact Or.inl rfl
          · exact Or.inr ⟨snapId, now, _, rfl, rfl, rfl, rfl, rfl⟩

/-- Claim C3: for every document and every nodeId, a `moveNode` whose target
parent is the node itself or any of its descendants (in the sense of the
descendant closure the code computes) returns the editor state completely
unchanged — document, `updatedAtIso` and history stack included — so
`moveNode` never introduces a cycle. -/
theorem c3_moveNode_cycle_noop (snapId now nodeId nextParentId : String) (nextIndex : Int)
    (s : EditorState) (h : Descends s.document.nodes nodeId nextParentId) :
    moveNode snapId now nodeId nextParentId nextIndex s = s :=
  moveNode_noop_of_descends snapId now nodeId nextParentId nextIndex s h

/-- Witness for C3: in the document root → a → b, moving `a` under its
descendant `b` leaves the state unchanged. -/
theorem c3_moveNode_cycle_noop_witness :
    Descends demoStateAB.document.nodes "a" "b" ∧
    moveNode "snap3" "t3" "a" "b" 0 demoStateAB = demoStateAB := by
  have hd : Descends demoStateAB.document.nodes "a" "b" :=
    (mem_getDescendantIds_iff _ _ _).1 (by decide)
  exact ⟨hd, c3_moveNode_cycle_noop "snap3" "t3" "a" "b" 0 demoStateAB hd⟩

/-- Claim C4 counterexample: renaming a node id absent from the document
(with a non-blank title) is not a no-op — it refreshes `updatedAtIso` and
pushes a history entry even though the node list is unchanged. -/
theorem c4_counterexample :
    (renameNode "snapX" "t9" "ghost" "Hello" demoState0).history.length = 2 ∧
    demoState0.history.length = 1 ∧
    (renameNode "snapX" "t9" "ghost" "Hello" demoState0).document.updatedAtIso = "t9" ∧
    demoState0.document.updatedAtIso = "t0" ∧
    (renameNode "snapX" "t9" "ghost" "Hello" demoState0).document.nodes =
      demoState0.document.nodes := by decide

/-- Claim C4 (amended): whitespace-only renames, `addChild` with an absent
parent id and self-parenting/cyclic moves are silently ignored with the
whole editor state unchanged; renaming an absent id (non-blank title) and
deleting an absent non-root id leave the node list unchanged but still
refresh `updatedAtIso` and push a history entry; no operation signals an
error. -/
theorem c4_validation_noops :
    (∀ (snapId now nodeId title : String) (s : EditorState), jsTrim title = "" →
      renameNode snapId now nodeId title s = s) ∧
    (∀ (freshId snapId now parentId : String) (s : EditorState),
      (∀ n ∈ s.document.nodes, n.id ≠ parentId) →
      addChildNode freshId snapId now parentId s = s) ∧
    (∀ (snapId now nodeId nextParentId : String) (nextIndex : Int) (s : EditorState),
      Descends s.document.nodes nodeId nextParentId →
      moveNode snapId now nodeId nextParentId nextIndex s = s) ∧
    (∀ (snapId now nodeId title : String) (s : EditorState), jsTrim title ≠ "" →
      (∀ n ∈ s.document.nodes, n.id ≠ nodeId) →
      (renameNode snapId now nodeId title s).document.nodes = s.document.nodes ∧
      (renameNode snapId now nodeId title s).document.updatedAtIso = now ∧
      (renameNode snapId now nodeId title s).history.length =
        (s.history.take (s.historyIndex + 1)).length + 1) ∧
    (∀ (snapId now nodeId : String) (s : EditorState), nodeId ≠ "root" →
      (∀ n ∈ s.document.nodes, n.id ≠ nodeId ∧ n.parentId ≠ some nodeId) →
      (deleteNode snapId now nodeId s).document.nodes = s.document.nodes ∧
      (deleteNode snapId now nodeId s).document.updatedAtIso = now ∧
      (deleteNode snapId now nodeId s).history.length =
        (s.history.take (s.historyIndex + 1)).length + 1) :=
  ⟨renameNode_noop_of_blank, addChildNode_noop_of_absent, moveNode_noop_of_descends,
    renameNode_absent, deleteNode_absent⟩

/-- Witness for the amended C4, instantiating each conjunct at a concrete
input with its hypotheses discharged. -/
theorem c4_validation_noops_witness :
    (jsTrim "   " = "" ∧ renameNode "sX" "t9" "root" "   " demoState0 = demoState0) ∧
    ((∀ n ∈ demoState0.document.nodes, n.id ≠ "ghost") ∧
      addChildNode "nX" "sX" "t9" "ghost" demoState0 = demoState0) ∧
    (Descends demoState0.document.nodes "ghost" "ghost" ∧
      moveNode "sX" "t9" "ghost" "ghost" 0 demoState0 = demoState0) ∧
    ((renameNode "sX" "t9" "ghost" "Hello" demoState0).document.nodes =
        demoState0.document.nodes ∧
      (renameNode "sX" "t9" "ghost" "Hello" demoState0).document.updatedAtIso = "t9" ∧
      (renameNode "sX" "t9" "ghost" "Hello" demoState0).history.length =
        (demoState0.history.take (demoState0.historyIndex + 1)).length + 1) ∧
    ((deleteNode "sX" "t9" "ghost" demoState0).document.nodes = demoState0.document.nodes ∧
      (deleteNode "sX" "t9" "ghost" demoState0).document.updatedAtIso = "t9" ∧
      (deleteNode "sX" "t9" "ghost" demoState0).history.length =
        (demoState0.history.take (demoState0.historyIndex + 1)).length + 1) := by
  refine ⟨⟨by decide, c4_validation_noops.1 "sX" "t9" "root" "   " demoState0 (by decide)⟩,
    ⟨by decide, c4_validation_noops.2.1 "nX" "sX" "t9" "ghost" demoState0 (by decide)⟩,
    ⟨Descends.refl, c4_validation_noops.2.2.1 "sX" "t9" "ghost" "ghost" 0 demoState0
      Descends.refl⟩,
    c4_validation_noops.2.2.2.1 "sX" "t9" "ghost" "Hello" demoState0 (by decide) (by decide),
    c4_validation_noops.2.2.2.2 "sX" "t9" "ghost" demoState0 (by decide) (by decide)⟩

/-- Claim C6: starting from a document with only the root, `addChild(root)`
creates N1 with order 0, a second `addChild(root)` creates N2 with order 1,
and `moveNode(N2, root, 0)` yields root's children in sibling order
[N2, N1] with order fields 0 and 1. -/
theorem c6_reorder_scenario :
    twoChildState1.document.nodes =
      [{ id := "root", title := "Main Topic", parentId := none, order := 0 },
       { id := "n1", title := "New Node", parentId := some "root", order := 0 }] ∧
    twoChildState2.document.nodes =
      [{ id := "root", title := "Main Topic", parentId := none, order := 0 },
       { id := "n1", title := "New Node", parentId := some "root", order := 0 },
       { id := "n2", title := "New Node", parentId := some "root", order := 1 }] ∧
    sortSiblingNodes (reorderedState.document.nodes.filter
        (fun n => n.parentId = some "root")) =
      [{ id := "n2", title := "New Node", parentId := some "root", order := 0 },
       { id := "n1", title := "New Node", parentId := some "root", order := 1 }] := by
  decide

/-- Claim C7: for any structural operation that pushes a history entry,
applying the operation and then `undo` restores a document whose node and
edge arrays are those of the original document (hence equal as unordered
sets), while the live document's id and title are preserved rather than
taken from the snapshot. -/
theorem c7_undo_roundtrip (op : EditOp) (s : EditorState)
    (hc : historyConsistent s)
    (hpush : (applyEditOp op s).historyIndex = s.historyIndex + 1) :
    (undo (applyEditOp op s)).document.nodes = s.document.nodes ∧
    (undo (applyEditOp op s)).document.edges = s.document.edges ∧
    (undo (applyEditOp op s)).document.id = s.document.id ∧
    (undo (applyEditOp op s)).document.title = s.document.title := by
  rcases applyEditOp_shape op s with heq | ⟨snapId, now, d, hh, hi, hd, hid, htitle⟩
  · rw [heq] at hpush
    omega
  · obtain ⟨h1, h2, h3, h4, _⟩ :=
      undo_after_pushHistory s (applyEditOp op s) snapId now d hc hh hi
    refine ⟨h1, h2, ?_, ?_⟩
    · rw [h3, hd, hid]
    · rw [h4, hd, htitle]

/-- Witness for C7: adding a child to the initial state and undoing restores
the original node and edge arrays. -/
theorem c7_undo_roundtrip_witness :
    historyConsistent demoState0 ∧
    (applyEditOp (.addChild "a" "snap1" "t1" "root") demoState0).historyIndex =
      demoState0.historyIndex + 1 ∧
    (undo (applyEditOp (.addChild "a" "snap1" "t1" "root") demoState0)).document.nodes =
      demoState0.document.nodes ∧
    (undo (applyEditOp (.addChild "a" "snap1" "t1" "root") demoState0)).document.edges =
      demoState0.document.edges := by
  have h := c7_undo_roundtrip (.addChild "a" "snap1" "t1" "root") demoState0
    (by constructor <;> decide) (by decide)
  exact ⟨by constructor <;> decide, by decide, h.1, h.2.1⟩

/-- Claim C10: a successful `addChild(parentId)` removes exactly the parent
id from the collapsed-set: the parent id is no longer collapsed and every
other id's collapsed status is unchanged. -/
theorem c10_addChild_collapsed (freshId snapId now parentId : String) (s : EditorState)
    (hsucc : ∃ n ∈ s.document.nodes, n.id = parentId) :
    parentId ∉ (addChildNode freshId snapId now parentId s).collapsedNodeIds ∧
    ∀ cid, cid ≠ parentId →
      (cid ∈ (addChildNode freshId snapId now parentId s).collapsedNodeIds ↔
        cid ∈ s.collapsedNodeIds) := by
  obtain ⟨n, hn, hid⟩ := hsucc
  unfold addChildNode
  cases hfind : s.document.nodes.find? (fun m => m.id == parentId) with
  | none =>
    rw [List.find?_eq_none] at hfind
    exact absurd (by simpa using hid) (hfind n hn)
  | some m =>
    simp only []
    constructor
    · intro hmem
      have := (List.mem_filter.1 hmem).2
      simp at this
    · intro cid hne
      constructor
      · intro hmem
        exact (List.mem_filter.1 hmem).1
      · intro hmem
        exact List.mem_filter.2 ⟨hmem, by simpa using hne⟩

/-- Witness for C10: in a state with collapsed set ["a", "b"], adding a
child under `a` leaves exactly ["b"] collapsed. -/
theorem c10_addChild_collapsed_witness :
    "a" ∉ (addChildNode "c" "snap3" "t3" "a" collapsedDemoState).collapsedNodeIds ∧
    ("b" ∈ (addChildNode "c" "snap3" "t3" "a" collapsedDemoState).collapsedNodeIds ↔
      "b" ∈ collapsedDemoState.collapsedNodeIds) := by
  have h := c10_addChild_collapsed "c" "snap3" "t3" "a" collapsedDemoState
    ⟨{ id := "a", title := "New Node", parentId := some "root", order := 0 }, by decide, rfl⟩
  exact ⟨h.1, h.2 "b" (by decide)⟩

/-! Association-map lemmas for the `moveNode` rebuild. -/

theorem upsert_mem {m : List (String × MindmapNode)} {k : String} {v : MindmapNode} :
    ∀ kv ∈ upsert m k v, kv ∈ m ∨ kv = (k, v) := by
  intro kv hkv
  unfold upsert at hkv
  split at hkv
  · obtain ⟨kv0, hkv0, heq⟩ := List.mem_map.1 hkv
    by_cases h : kv0.1 = k
    · right
      rw [← heq, if_pos h]
    · left
      rw [← heq, if_neg h]
      exact hkv0
  · rcases List.mem_append.1 hkv with h | h
    · exact Or.inl h
    · right
      simpa using h

theorem lookupA_isSome_iff (m : List (String × MindmapNode)) (k : String) :
    (lookupA m k).isSome ↔ ∃ kv ∈ m, kv.1 = k := by
  unfold lookupA
  cases hf : m.find? (fun kv => decide (kv.1 = k)) with
  | none =>
    rw [List.find?_eq_none] at hf
    simp only [Option.map_none', Option.isSome_none, Bool.false_eq_true, false_iff]
    rintro ⟨kv, hkv, hk⟩
    exact (hf kv hkv) (by simpa using hk)
  | some kv =>
    simp only [Option.map_some', Option.isSome_some, true_iff]
    exact ⟨kv, List.mem_of_find?_eq_some hf, by simpa using List.find?_some hf⟩

theorem lookupA_mem {m : List (String × MindmapNode)} {k : String} {v : MindmapNode}
    (h : lookupA m k = some v) : (k, v) ∈ m := by
  unfold lookupA at h
  cases hf : m.find? (fun kv => decide (kv.1 = k)) with
  | none => rw [hf] at h; cases h
  | some kv =>
    rw [hf] at h
    have hkv : kv.2 = v := by simpa using h
    have hk : kv.1 = k := by simpa using List.find?_some hf
    have : kv = (k, v) := by
      cases kv
      simp_all
    exact this ▸ List.mem_of_find?_eq_some hf

theorem lookupA_upsert_isSome_of {m : List (String × MindmapNode)} {k' : String}
    (k : String) (v : MindmapNode) (h : (lookupA m k').isSome) :
    (lookupA (upsert m k v) k').isSome := by
  rw [lookupA_isSome_iff] at h ⊢
  obtain ⟨kv, hkv, hk⟩ := h
  unfold upsert
  split
  · by_cases hc : kv.1 = k
    · exact ⟨(k, v), List.mem_map.2 ⟨kv, hkv, by rw [if_pos hc]⟩, by rw [← hk, hc]⟩
    · exact ⟨kv, List.mem_map.2 ⟨kv, hkv, by rw [if_neg hc]⟩, hk⟩
  · exact ⟨kv, List.mem_append_left _ hkv, hk⟩

theorem lookupA_upsert_self_isSome (m : List (String × MindmapNode)) (k : String)
    (v : MindmapNode) : (lookupA (upsert m k v) k).isSome := by
  rw [lookupA_isSome_iff]
  unfold upsert
  split
  · rename_i hany
    obtain ⟨kv, hkv, hk⟩ := List.any_eq_true.1 hany
    refine ⟨(k, v), List.mem_map.2 ⟨kv, hkv, ?_⟩, rfl⟩
    rw [if_pos (by simpa using hk)]
  · exact ⟨(k, v), List.mem_append_right _ (by simp), rfl⟩

theorem foldl_upsert_inv {α : Type} (P : String × MindmapNode → Prop)
    (key : α → String) (val : α → MindmapNode) :
    ∀ (l : List α) (m : List (String × MindmapNode)),
      (∀ kv ∈ m, P kv) → (∀ a ∈ l, P (key a, val a)) →
      ∀ kv ∈ l.foldl (fun m a => upsert m (key a) (val a)) m, P kv := by
  intro l
  induction l with
  | nil => exact fun m hm _ => hm
  | cons a t ih =>
    intro m hm hl kv hkv
    refine ih (upsert m (key a) (val a)) ?_ (fun b hb => hl b (List.mem_cons_of_mem _ hb)) kv hkv
    intro kv' hkv'
    rcases upsert_mem kv' hkv' with h | h
    · exact hm kv' h
    · rw [h]
      exact hl a (List.mem_cons_self a t)

theorem foldl_upsert_isSome_of {α : Type} (key : α → String) (val : α → MindmapNode) :
    ∀ (l : List α) (m : List (String × MindmapNode)) (k : String), (lookupA m k).isSome →
      (lookupA (l.foldl (fun m a => upsert m (key a) (val a)) m) k).isSome := by
  intro l
  induction l with
  | nil => exact fun m k h => h
  | cons a t ih =>
    intro m k h
    exact ih _ k (lookupA_upsert_isSome_of (key a) (val a) h)

theorem foldl_upsert_isSome_mem {α : Type} (key : α → String) (val : α → MindmapNode) :
    ∀ (l : List α) (m : List (String × MindmapNode)) (k : String), (∃ a ∈ l, key a = k) →
      (lookupA (l.foldl (fun m a => upsert m (key a) (val a)) m) k).isSome := by
  intro l
  induction l with
  | nil => rintro m k ⟨a, ha, _⟩; cases ha
  | cons a t ih =>
    rintro m k ⟨b, hb, hkey⟩
    rcases List.mem_cons.1 hb with rfl | hb
    · refine foldl_upsert_isSome_of key val t _ k ?_
      rw [← hkey]
      exact lookupA_upsert_self_isSome m (key b) (val b)
    · exact ih _ k ⟨b, hb, hkey⟩

theorem mem_sortSiblingNodes {l : List MindmapNode} {a : MindmapNode} :
    a ∈ sortSiblingNodes l ↔ a ∈ l :=
  (List.perm_insertionSort siblingLE l).mem_iff

theorem mem_of_mem_enum {l : List MindmapNode} {pair : Nat × MindmapNode}
    (h : pair ∈ l.enum) : pair.2 ∈ l := by
  have : pair.2 ∈ l.enum.map Prod.snd := List.mem_map_of_mem Prod.snd h
  rwa [List.enum_map_snd] at this

theorem exists_enum_of_mem {l : List MindmapNode} {a : MindmapNode} (h : a ∈ l) :
    ∃ pair ∈ l.enum, pair.2 = a := by
  have : a ∈ l.enum.map Prod.snd := by rwa [List.enum_map_snd]
  obtain ⟨pair, hpair, hsnd⟩ := List.mem_map.1 this
  exact ⟨pair, hpair, hsnd⟩

theorem mem_moveTargetSiblings {nodes : List MindmapNode} {movingNode : MindmapNode}
    {nextParentId : String} {nextIndex : Int} {sib : MindmapNode}
    (h : sib ∈ moveTargetSiblings nodes movingNode nextParentId nextIndex) :
    sib = { movingNode with parentId := some nextParentId } ∨
      (sib ∈ moveRemaining nodes movingNode.id ∧ sib.parentId = some nextParentId) := by
  unfold moveTargetSiblings at h
  simp only [List.mem_append] at h
  rcases h with (h | h) | h
  · right
    have hs : sib ∈ sortSiblingNodes ((moveRemaining nodes movingNode.id).filter
        (fun n => n.parentId = some nextParentId)) := List.mem_of_mem_take h
    rw [mem_sortSiblingNodes, List.mem_filter] at hs
    exact ⟨hs.1, by simpa using hs.2⟩
  · left
    simpa using h
  · right
    have hs : sib ∈ sortSiblingNodes ((moveRemaining nodes movingNode.id).filter
        (fun n => n.parentId = some nextParentId)) := List.mem_of_mem_drop h
    rw [mem_sortSiblingNodes, List.mem_filter] at hs
    exact ⟨hs.1, by simpa using hs.2⟩

theorem mem_moveRemaining {nodes : List MindmapNode} {movingId : String} {n : MindmapNode} :
    n ∈ moveRemaining nodes movingId ↔ n ∈ nodes ∧ n.id ≠ movingId := by
  unfold moveRemaining
  rw [List.mem_filter]
  simp

theorem nodup_id_inj {nodes : List MindmapNode} (hnd : (nodeIds nodes).Nodup)
    {a b : MindmapNode} (ha : a ∈ nodes) (hb : b ∈ nodes) (h : a.id = b.id) : a = b := by
  exact List.inj_on_of_nodup_map hnd ha hb h

/-! Preservation of the no-orphans invariant by the five operations. -/

theorem wellFormed_parent_facts {nodes : List MindmapNode} (hwf : WellFormed nodes)
    {n : MindmapNode} {p : String} (hn : n ∈ nodes) (hp : n.parentId = some p) :
    p ≠ "" ∧ ∃ m ∈ nodes, m.id = p := by
  obtain ⟨hne, hpmem⟩ := hwf.2.2.1 n hn p hp
  obtain ⟨m, hm, hmid⟩ := List.mem_map.1 hpmem
  exact ⟨hne, m, hm, hmid⟩

theorem noOrphans_append_child (nodes : List MindmapNode) (N : MindmapNode) (p : String)
    (hno : NoOrphans nodes) (hp : N.parentId = some p) (hne : p ≠ "")
    (hparent : ∃ m ∈ nodes, m.id = p) :
    NoOrphans (nodes ++ [N]) := by
  intro n hn
  rcases List.mem_append.1 hn with hn | hn
  · exact (hno n hn).mono_append
  · have hn : n = N := by simpa using hn
    subst hn
    obtain ⟨m, hm, hmid⟩ := hparent
    have hreach : Descends nodes "root" p := hmid ▸ hno m hm
    exact .step n (List.mem_append_right _ (by simp)) hp hne hreach.mono_append

theorem noOrphans_addChildNode (freshId snapId now parentId : String) (s : EditorState)
    (hwf : WellFormed s.document.nodes) :
    NoOrphans (addChildNode freshId snapId now parentId s).document.nodes := by
  unfold addChildNode
  split
  · exact hwf.2.2.2
  next parent hfind =>
    obtain ⟨hmem, hid⟩ := find?_id_eq hfind
    have hne : parentId ≠ "" := hid ▸ hwf.2.1 parent hmem
    exact noOrphans_append_child s.document.nodes _ parentId hwf.2.2.2 rfl hne
      ⟨parent, hmem, hid⟩

theorem noOrphans_addSiblingNode (freshId snapId now nodeId : String) (s : EditorState)
    (hwf : WellFormed s.document.nodes) :
    NoOrphans (addSiblingNode freshId snapId now nodeId s).document.nodes := by
  unfold addSiblingNode
  split
  · exact hwf.2.2.2
  next currentNode hfind =>
    split
    · exact hwf.2.2.2
    next parentVal hp =>
      obtain ⟨hmem, _⟩ := find?_id_eq hfind
      obtain ⟨hne, hparent⟩ := wellFormed_parent_facts hwf hmem hp
      exact noOrphans_append_child s.document.nodes _ parentVal hwf.2.2.2 rfl hne hparent

theorem noOrphans_map_preserving (nodes : List MindmapNode) (f : MindmapNode → MindmapNode)
    (hid : ∀ n, (f n).id = n.id) (hpar : ∀ n, (f n).parentId = n.parentId)
    (hno : NoOrphans nodes) : NoOrphans (nodes.map f) := by
  intro n hn
  obtain ⟨m, hm, rfl⟩ := List.mem_map.1 hn
  have htrans : Descends (nodes.map f) "root" m.id :=
    (hno m hm).transfer (fun a ha => ⟨f a, List.mem_map_of_mem f ha, hid a, hpar a⟩)
  rw [hid m]
  exact htrans

theorem noOrphans_renameNode (snapId now nodeId title : String) (s : EditorState)
    (hno : NoOrphans s.document.nodes) :
    NoOrphans (renameNode snapId now nodeId title s).document.nodes := by
  unfold renameNode
  dsimp only
  split
  · exact hno
  · refine noOrphans_map_preserving s.document.nodes _ ?_ ?_ hno <;>
      intro n <;> dsimp only <;> split <;> rfl

theorem noOrphans_deleteNode (snapId now nodeId : String) (s : EditorState)
    (hno : NoOrphans s.document.nodes) :
    NoOrphans (deleteNode snapId now nodeId s).document.nodes := by
  unfold deleteNode
  split
  · exact hno
  · intro n hn
    have hmem := List.mem_filter.1 hn
    have hnx : ¬ Descends s.document.nodes nodeId n.id := by
      have h2 := hmem.2
      simp only [decide_eq_true_eq] at h2
      rw [mem_getDescendantIds_iff] at h2
      exact h2
    exact (hno n hmem.1).avoid hnx

theorem moveUpdatedById_inv (nodes : List MindmapNode) (movingNode : MindmapNode)
    (nextParentId : String) (nextIndex : Int) :
    ∀ kv ∈ moveUpdatedById nodes movingNode nextParentId nextIndex,
      kv.1 = kv.2.id ∧
      (kv.2.id = movingNode.id → kv.2.parentId = some nextParentId) ∧
      (kv.2.id ≠ movingNode.id →
        ∃ n ∈ nodes, n.id = kv.2.id ∧ n.parentId = kv.2.parentId) := by
  set P : String × MindmapNode → Prop := fun kv =>
    kv.1 = kv.2.id ∧
    (kv.2.id = movingNode.id → kv.2.parentId = some nextParentId) ∧
    (kv.2.id ≠ movingNode.id →
      ∃ n ∈ nodes, n.id = kv.2.id ∧ n.parentId = kv.2.parentId) with hP
  have hm0 : ∀ kv ∈ (moveRemaining nodes movingNode.id).foldl
      (fun m n => upsert m n.id n) [], P kv := by
    refine foldl_upsert_inv P (fun n => n.id) (fun n => n) _ [] (by simp) ?_
    intro n hn
    obtain ⟨hmem, hne⟩ := mem_moveRemaining.1 hn
    exact ⟨rfl, fun h => absurd h hne, fun _ => ⟨n, hmem, rfl, rfl⟩⟩
  have htarget : ∀ (m : List (String × MindmapNode)), (∀ kv ∈ m, P kv) →
      ∀ kv ∈ (moveTargetSiblings nodes movingNode nextParentId nextIndex).enum.foldl
        (fun m pair => upsert m pair.2.id
          { pair.2 with parentId := some nextParentId, order := (pair.1 : Int) }) m, P kv := by
    intro m hm
    refine foldl_upsert_inv P (fun pair : Nat × MindmapNode => pair.2.id)
      (fun pair : Nat × MindmapNode =>
        { pair.2 with parentId := some nextParentId, order := (pair.1 : Int) })
      _ m hm ?_
    intro pair hpair
    have hsib := mem_of_mem_enum hpair
    dsimp only
    rcases mem_moveTargetSiblings hsib with hins | ⟨hrem, hpid⟩
    · refine ⟨rfl, fun _ => rfl, fun hne => absurd ?_ hne⟩
      rw [hins]
    · obtain ⟨hmem, _⟩ := mem_moveRemaining.1 hrem
      exact ⟨rfl, fun _ => rfl, fun _ => ⟨pair.2, hmem, rfl, hpid⟩⟩
  have helse : ∀ (parentId : Option String) (m : List (String × MindmapNode)),
      (∀ kv ∈ m, P kv) →
      ∀ kv ∈ (sortSiblingNodes ((moveRemaining nodes movingNode.id).filter
          (fun n => n.parentId = parentId))).enum.foldl
        (fun m pair => upsert m pair.2.id { pair.2 with order := (pair.1 : Int) }) m, P kv := by
    intro parentId m hm
    refine foldl_upsert_inv P (fun pair : Nat × MindmapNode => pair.2.id)
      (fun pair : Nat × MindmapNode => { pair.2 with order := (pair.1 : Int) }) _ m hm ?_
    intro pair hpair
    have hsib := mem_of_mem_enum hpair
    rw [mem_sortSiblingNodes, List.mem_filter] at hsib
    obtain ⟨hmem, hne⟩ := mem_moveRemaining.1 hsib.1
    dsimp only
    exact ⟨rfl, fun h => absurd h hne, fun _ => ⟨pair.2, hmem, rfl, rfl⟩⟩
  have houter : ∀ (pids : List (Option String)) (m : List (String × MindmapNode)),
      (∀ kv ∈ m, P kv) →
      ∀ kv ∈ pids.foldl
        (fun m parentId =>
          if parentId = some nextParentId then
            (moveTargetSiblings nodes movingNode nextParentId nextIndex).enum.foldl
              (fun m pair => upsert m pair.2.id
                { pair.2 with parentId := some nextParentId, order := (pair.1 : Int) }) m
          else
            let siblings := sortSiblingNodes
              ((moveRemaining nodes movingNode.id).filter (fun n => n.parentId = parentId))
            siblings.enum.foldl (fun m pair =>
              upsert m pair.2.id { pair.2 with order := (pair.1 : Int) }) m)
        m, P kv := by
    intro pids
    induction pids with
    | nil => exact fun m hm => hm
    | cons a t ih =>
      intro m hm
      rw [List.foldl_cons]
      refine ih _ ?_
      by_cases hc : a = some nextParentId
      · rw [if_pos hc]
        exact htarget m hm
      · rw [if_neg hc]
        exact helse a m hm
  intro kv hkv
  unfold moveUpdatedById at hkv
  exact houter _ _ hm0 kv hkv

theorem mem_affectedParentIds (oldParent : Option String) (nextParentId : String) :
    some nextParentId ∈ affectedParentIds oldParent nextParentId := by
  unfold affectedParentIds
  by_cases hc : oldParent = some nextParentId
  · rw [if_pos hc]
    simp
  · rw [if_neg hc]
    simp

theorem moveUpdatedById_key_present (nodes : List MindmapNode) (movingNode : MindmapNode)
    (nextParentId : String) (nextIndex : Int) (_hmv : movingNode ∈ nodes) :
    ∀ n ∈ nodes,
      (lookupA (moveUpdatedById nodes movingNode nextParentId nextIndex) n.id).isSome := by
  have hins : ∃ pair ∈ (moveTargetSiblings nodes movingNode nextParentId nextIndex).enum,
      pair.2.id = movingNode.id := by
    have hmemins : ({ movingNode with parentId := some nextParentId } : MindmapNode) ∈
        moveTargetSiblings nodes movingNode nextParentId nextIndex := by
      unfold moveTargetSiblings
      simp
    obtain ⟨pair, hpair, hsnd⟩ := exists_enum_of_mem hmemins
    exact ⟨pair, hpair, by rw [hsnd]⟩
  have houter : ∀ (pids : List (Option String)) (m : List (String × MindmapNode)) (k : String),
      ((lookupA m k).isSome ∨ (k = movingNode.id ∧ some nextParentId ∈ pids)) →
      (lookupA (pids.foldl
        (fun m parentId =>
          if parentId = some nextParentId then
            (moveTargetSiblings nodes movingNode nextParentId nextIndex).enum.foldl
              (fun m pair => upsert m pair.2.id
                { pair.2 with parentId := some nextParentId, order := (pair.1 : Int) }) m
          else
            let siblings := sortSiblingNodes
              ((moveRemaining nodes movingNode.id).filter (fun n => n.parentId = parentId))
            siblings.enum.foldl (fun m pair =>
              upsert m pair.2.id { pair.2 with order := (pair.1 : Int) }) m)
        m) k).isSome := by
    intro pids
    induction pids with
    | nil =>
      rintro m k (h | ⟨_, h⟩)
      · exact h
      · cases h
    | cons a t ih =>
      intro m k hk
      rw [List.foldl_cons]
      by_cases hc : a = some nextParentId
      · rw [if_pos hc]
        rcases hk with h | ⟨rfl, _⟩
        · exact ih _ k (Or.inl (foldl_upsert_isSome_of _ _ _ m k h))
        · exact ih _ _ (Or.inl (foldl_upsert_isSome_mem _ _ _ m _ hins))
      · rw [if_neg hc]
        rcases hk with h | ⟨rfl, hmem⟩
        · exact ih _ k (Or.inl (foldl_upsert_isSome_of _ _ _ m k h))
        · rcases List.mem_cons.1 hmem with heq | hmem
          · exact absurd heq.symm hc
          · exact ih _ _ (Or.inr ⟨rfl, hmem⟩)
  intro n hn
  unfold moveUpdatedById
  by_cases hidc : n.id = movingNode.id
  · exact houter _ _ _ (Or.inr ⟨hidc, mem_affectedParentIds _ _⟩)
  · refine houter _ _ _ (Or.inl ?_)
    refine foldl_upsert_isSome_mem (fun n => n.id) (fun n => n) _ [] n.id ?_
    exact ⟨n, mem_moveRemaining.2 ⟨hn, hidc⟩, rfl⟩

theorem lookupA_moveUpdatedById (nodes : List MindmapNode) (movingNode : MindmapNode)
    (nextParentId : String) (nextIndex : Int) (hnd : (nodeIds nodes).Nodup)
    (hmv : movingNode ∈ nodes) :
    ∀ n ∈ nodes, n.id ≠ movingNode.id →
      ∃ v, lookupA (moveUpdatedById nodes movingNode nextParentId nextIndex) n.id = some v ∧
        v.id = n.id ∧ v.parentId = n.parentId := by
  intro n hn hne
  have hsome := moveUpdatedById_key_present nodes movingNode nextParentId nextIndex hmv n hn
  obtain ⟨v, hv⟩ := Option.isSome_iff_exists.1 hsome
  obtain ⟨hkey, _, hother⟩ := moveUpdatedById_inv nodes movingNode nextParentId nextIndex
    (n.id, v) (lookupA_mem hv)
  have hvid : v.id = n.id := hkey.symm
  obtain ⟨n', hn', hn'id, hn'par⟩ := hother (by rw [hvid]; exact hne)
  have : n' = n := nodup_id_inj hnd hn' hn (by rw [hn'id, hvid])
  subst this
  exact ⟨v, hv, hvid, hn'par.symm⟩

theorem lookupA_moveUpdatedById_self (nodes : List MindmapNode) (movingNode : MindmapNode)
    (nextParentId : String) (nextIndex : Int) (hmv : movingNode ∈ nodes) :
    ∃ v, lookupA (moveUpdatedById nodes movingNode nextParentId nextIndex) movingNode.id =
        some v ∧ v.id = movingNode.id ∧ v.parentId = some nextParentId := by
  have hsome := moveUpdatedById_key_present nodes movingNode nextParentId nextIndex hmv
    movingNode hmv
  obtain ⟨v, hv⟩ := Option.isSome_iff_exists.1 hsome
  obtain ⟨hkey, hself, _⟩ := moveUpdatedById_inv nodes movingNode nextParentId nextIndex
    (movingNode.id, v) (lookupA_mem hv)
  exact ⟨v, hv, hkey.symm, hself hkey.symm⟩

theorem noOrphans_moveNodeRebuild (nodes : List MindmapNode) (movingNode : MindmapNode)
    (nextParentId : String) (nextIndex : Int)
    (hwf : WellFormed nodes) (hmv : movingNode ∈ nodes)
    (htarget : ∃ t ∈ nodes, t.id = nextParentId)
    (hnotdesc : ¬ Descends nodes movingNode.id nextParentId) :
    NoOrphans (moveNodeRebuild nodes movingNode nextParentId nextIndex) := by
  obtain ⟨hnd, hneids, _href, hno⟩ := hwf
  obtain ⟨t, htmem, htid⟩ := htarget
  have hpne : nextParentId ≠ "" := htid ▸ hneids t htmem
  -- every surviving non-moving node keeps its id and parent in the rebuilt list
  have hkeep : ∀ m ∈ nodes, m.id ≠ movingNode.id →
      ∃ m' ∈ moveNodeRebuild nodes movingNode nextParentId nextIndex,
        m'.id = m.id ∧ m'.parentId = m.parentId := by
    intro m hm hne
    obtain ⟨v, hv, hvid, hvpar⟩ :=
      lookupA_moveUpdatedById nodes movingNode nextParentId nextIndex hnd hmv m hm hne
    exact ⟨v, List.mem_filterMap.2 ⟨m, hm, hv⟩, hvid, hvpar⟩
  -- the target parent is reachable in the rebuilt list
  have hA : Descends (moveNodeRebuild nodes movingNode nextParentId nextIndex)
      "root" nextParentId := by
    have h1 : Descends nodes "root" nextParentId := htid ▸ hno t htmem
    have h2 := h1.avoid (x := movingNode.id) hnotdesc
    refine h2.transfer ?_
    intro m hm
    have hmem := List.mem_filter.1 hm
    have hmne : m.id ≠ movingNode.id := by
      have h3 := hmem.2
      simp only [decide_eq_true_eq] at h3
      rw [mem_getDescendantIds_iff] at h3
      intro hcon
      exact h3 (hcon ▸ Descends.refl)
    obtain ⟨m', hm', hid, hpar⟩ := hkeep m hmem.1 hmne
    exact ⟨m', hm', hid, hpar⟩
  -- the moving node is reachable in the rebuilt list through its new parent
  have hB : Descends (moveNodeRebuild nodes movingNode nextParentId nextIndex)
      "root" movingNode.id := by
    obtain ⟨v, hv, hvid, hvpar⟩ :=
      lookupA_moveUpdatedById_self nodes movingNode nextParentId nextIndex hmv
    have hvmem : v ∈ moveNodeRebuild nodes movingNode nextParentId nextIndex :=
      List.mem_filterMap.2 ⟨movingNode, hmv, hv⟩
    have := Descends.step v hvmem hvpar hpne hA
    rwa [hvid] at this
  -- every id reachable in the old list is reachable in the rebuilt list
  have hMT : ∀ y, Descends nodes "root" y →
      Descends (moveNodeRebuild nodes movingNode nextParentId nextIndex) "root" y := by
    intro y hy
    induction hy with
    | refl => exact .refl
    | step n hn hp hne hrec ih =>
      by_cases hidc : n.id = movingNode.id
      · rw [hidc]
        exact hB
      · obtain ⟨v, hv, hvid, hvpar⟩ :=
          lookupA_moveUpdatedById nodes movingNode nextParentId nextIndex hnd hmv n hn hidc
        have hvmem : v ∈ moveNodeRebuild nodes movingNode nextParentId nextIndex :=
          List.mem_filterMap.2 ⟨n, hn, hv⟩
        have := Descends.step v hvmem (hvpar.trans hp) hne ih
        rwa [hvid] at this
  -- conclude: every node of the rebuilt list is reachable
  intro n' hn'
  obtain ⟨n, hn, hv⟩ := List.mem_filterMap.1 hn'
  obtain ⟨hkey, hself, hother⟩ := moveUpdatedById_inv nodes movingNode nextParentId nextIndex
    (n.id, n') (lookupA_mem hv)
  by_cases hidc : n'.id = movingNode.id
  · rw [hidc]
    exact hB
  · obtain ⟨n'', hn'', hn''id, _⟩ := hother hidc
    have := hMT n''.id (hno n'' hn'')
    rwa [hn''id] at this

theorem noOrphans_moveNode (snapId now nodeId nextParentId : String) (nextIndex : Int)
    (s : EditorState) (hwf : WellFormed s.document.nodes) :
    NoOrphans (moveNode snapId now nodeId nextParentId nextIndex s).document.nodes := by
  unfold moveNode
  split
  · exact hwf.2.2.2
  next movingNode hfind =>
    split
    · exact hwf.2.2.2
    · split
      · exact hwf.2.2.2
      next targetParent hfind2 =>
        dsimp only
        split
        · exact hwf.2.2.2
        next hguard =>
          obtain ⟨hmv, _⟩ := find?_id_eq hfind
          obtain ⟨htmem, htid⟩ := find?_id_eq hfind2
          have hnotdesc : ¬ Descends s.document.nodes movingNode.id nextParentId := by
            rw [← mem_getDescendantIds_iff]
            exact hguard
          exact noOrphans_moveNodeRebuild s.document.nodes movingNode nextParentId nextIndex
            hwf hmv ⟨targetParent, htmem, htid⟩ hnotdesc

/-- Claim C2 counterexample: the invariant "all nodes reachable from root
implies all nodes reachable after any operation" fails as stated.  In a
document where a node has the empty string as id (and every node is
reachable from the root), `addChild` on that empty id creates a child whose
parent reference is falsy for the closure loop, leaving the new node
unreachable. -/
theorem c2_counterexample :
    NoOrphans emptyIdState.document.nodes ∧
    ¬ NoOrphans (addChildNode "nX" "snapX" "t1" "" emptyIdState).document.nodes :=
  ⟨(noOrphansB_iff _).1 (by decide),
    fun h => absurd ((noOrphansB_iff _).2 h) (by decide)⟩

/-- Claim C2 (amended): for every well-formed document — node ids unique and
non-empty, every parent reference a non-empty id of an existing node, every
node reachable from the root — each of the five structural operations
yields a document in which the set of nodes reachable from the root again
equals the full node set. -/
theorem c2_no_orphans_preserved (op : EditOp) (s : EditorState)
    (hwf : WellFormed s.document.nodes) :
    NoOrphans (applyEditOp op s).document.nodes := by
  cases op with
  | addChild freshId snapId now parentId =>
    exact noOrphans_addChildNode freshId snapId now parentId s hwf
  | addSibling freshId snapId now nodeId =>
    exact noOrphans_addSiblingNode freshId snapId now nodeId s hwf
  | rename snapId now nodeId title =>
    exact noOrphans_renameNode snapId now nodeId title s hwf.2.2.2
  | delete snapId now nodeId =>
    exact noOrphans_deleteNode snapId now nodeId s hwf.2.2.2
  | move snapId now nodeId nextParentId nextIndex =>
    exact noOrphans_moveNode snapId now nodeId nextParentId nextIndex s hwf

/-- Witness for the amended C2: deleting the inner node of the well-formed
document root → a → b keeps every remaining node reachable. -/
theorem c2_no_orphans_preserved_witness :
    WellFormed demoStateAB.document.nodes ∧
    NoOrphans (applyEditOp (.delete "snapX" "t9" "a") demoStateAB).document.nodes := by
  have hwf : WellFormed demoStateAB.document.nodes := (wellFormedB_iff _).1 (by decide)
  exact ⟨hwf, c2_no_orphans_preserved (.delete "snapX" "t9" "a") demoStateAB hwf⟩

/-- Claim C5: on a document satisfying the tree invariant, `deleteNode(x)`
for a present non-root id `x` removes exactly {x} ∪ descendants(x): the
removed-id list is a duplicate-free enumeration of the descendant closure
of `x`, a node is retained if and only if its id is outside that closure,
no new nodes appear, and the node count drops by the size of the closure. -/
theorem c5_deleteNode_exact (snapId now x : String) (s : EditorState)
    (hwf : WellFormed s.document.nodes) (hx : x ∈ nodeIds s.document.nodes)
    (hroot : x ≠ "root") :
    ((getDescendantIds s.document.nodes x).Nodup ∧
      ∀ y, y ∈ getDescendantIds s.document.nodes x ↔ Descends s.document.nodes x y) ∧
    (∀ n ∈ s.document.nodes,
      n ∈ (deleteNode snapId now x s).document.nodes ↔
        ¬ Descends s.document.nodes x n.id) ∧
    (∀ n ∈ (deleteNode snapId now x s).document.nodes, n ∈ s.document.nodes) ∧
    (deleteNode snapId now x s).document.nodes.length =
      s.document.nodes.length - (getDescendantIds s.document.nodes x).length := by
  have hdel : (deleteNode snapId now x s).document.nodes =
      s.document.nodes.filter (fun n => n.id ∉ getDescendantIds s.document.nodes x) := by
    unfold deleteNode
    rw [if_neg hroot]
    rfl
  refine ⟨⟨getDescendantIds_nodup _ _, fun y => mem_getDescendantIds_iff _ _ _⟩, ?_, ?_, ?_⟩
  · intro n hn
    rw [hdel, List.mem_filter]
    simp only [decide_eq_true_eq]
    rw [mem_getDescendantIds_iff]
    exact ⟨fun h => h.2, fun h => ⟨hn, h⟩⟩
  · intro n hn
    rw [hdel] at hn
    exact (List.mem_filter.1 hn).1
  · rw [hdel]
    have hcongr : s.document.nodes.filter
        (fun n => n.id ∉ getDescendantIds s.document.nodes x) =
        s.document.nodes.filter
          (fun n => !(decide (n.id ∈ getDescendantIds s.document.nodes x))) := by
      refine List.filter_congr ?_
      intro n _
      rw [decide_not]
    have hperm := List.filter_append_perm
      (fun n => decide (n.id ∈ getDescendantIds s.document.nodes x)) s.document.nodes
    have hlen := hperm.length_eq
    rw [List.length_append] at hlen
    have hdropmap : (s.document.nodes.filter
        (fun n => decide (n.id ∈ getDescendantIds s.document.nodes x))).map
          (fun n => n.id) =
        (nodeIds s.document.nodes).filter
          (fun y => decide (y ∈ getDescendantIds s.document.nodes x)) := by
      unfold nodeIds
      rw [List.filter_map]
      rfl
    have hsubids : ∀ y ∈ getDescendantIds s.document.nodes x, y ∈ nodeIds s.document.nodes := by
      intro y hy
      rcases mem_getDescendantIds_src _ _ _ hy with rfl | ⟨n, hn, rfl⟩
      · exact hx
      · exact List.mem_map_of_mem _ hn
    have hperm2 : List.Perm ((nodeIds s.document.nodes).filter
        (fun y => decide (y ∈ getDescendantIds s.document.nodes x)))
        (getDescendantIds s.document.nodes x) := by
      refine (List.perm_ext_iff_of_nodup (hwf.1.filter _) (getDescendantIds_nodup _ _)).2 ?_
      intro y
      rw [List.mem_filter]
      simp only [decide_eq_true_eq]
      exact ⟨fun h => h.2, fun h => ⟨hsubids y h, h⟩⟩
    have hdroplen : (s.document.nodes.filter
        (fun n => decide (n.id ∈ getDescendantIds s.document.nodes x))).length =
        (getDescendantIds s.document.nodes x).length := by
      have h1 := congrArg List.length hdropmap
      rw [List.length_map] at h1
      rw [h1]
      exact hperm2.length_eq
    rw [hcongr]
    omega

/-- Witness for C5: deleting node `a` of root → a → b removes exactly
{a, b}: the retained/removed characterisation and the count 3 - 2 = 1. -/
theorem c5_deleteNode_exact_witness :
    WellFormed demoStateAB.document.nodes ∧
    (∀ n ∈ (deleteNode "snapX" "t9" "a" demoStateAB).document.nodes,
      n ∈ demoStateAB.document.nodes) ∧
    (deleteNode "snapX" "t9" "a" demoStateAB).document.nodes.length =
      demoStateAB.document.nodes.length -
        (getDescendantIds demoStateAB.document.nodes "a").length := by
  have hwf : WellFormed demoStateAB.document.nodes := (wellFormedB_iff _).1 (by decide)
  have h := c5_deleteNode_exact "snapX" "t9" "a" demoStateAB hwf (by decide) (by decide)
  exact ⟨hwf, h.2.2.1, h.2.2.2⟩

/-! The autosave pipeline. -/

theorem runAutosaveEffect_schedules (sheetTitle : String) (doc : MindmapDocument)
    (st0 : PipelineState)
    (hConflict : st0.hasSyncConflict = false)
    (hInflight : st0.saveInFlight = false)
    (hsig : createDocumentSignature { doc with title := sheetTitle } ≠ st0.lastSavedSignature) :
    runAutosaveEffect true sheetTitle doc st0 =
      { st0 with
        syncStatus := "auto-saving..."
        isAutoSaving := true
        autosaveVersion := st0.autosaveVersion + 1
        timer := some { requestVersion := st0.autosaveVersion + 1
                        payload := { doc with title := sheetTitle }
                        signature := createDocumentSignature { doc with title := sheetTitle } } } := by
  unfold runAutosaveEffect
  dsimp only
  rw [if_neg (by simp), if_neg (by simp [hConflict]), if_neg (by simpa using hsig),
    if_neg (by simp [hInflight])]

theorem fireAutosaveTimer_some (st : PipelineState) (t : PendingSave)
    (h : st.timer = some t) :
    (fireAutosaveTimer st).1.savesIssued = st.savesIssued ++ [t.payload] ∧
    (fireAutosaveTimer st).1.timer = none ∧
    (fireAutosaveTimer st).2 = some t := by
  unfold fireAutosaveTimer
  rw [h]
  exact ⟨rfl, rfl, rfl⟩

/-- Claim C8: two document edits within the debounce window — two autosave
effect runs with no timer fire in between — while editing is permitted and
no save is in flight, issue exactly one network save call, whose payload is
the document state after the later edit; the earlier pending timer is
cancelled by the effect cleanup, not fired. -/
theorem c8_debounce_single_save (st0 : PipelineState) (sheetTitle : String)
    (doc1 doc2 : MindmapDocument)
    (hConflict : st0.hasSyncConflict = false)
    (hInflight : st0.saveInFlight = false)
    (hsig1 : createDocumentSignature { doc1 with title := sheetTitle } ≠ st0.lastSavedSignature)
    (hsig2 : createDocumentSignature { doc2 with title := sheetTitle } ≠ st0.lastSavedSignature) :
    (∃ t1, (runAutosaveEffect true sheetTitle doc1 st0).timer = some t1 ∧
        t1.payload = { doc1 with title := sheetTitle }) ∧
    (fireAutosaveTimer (runAutosaveEffect true sheetTitle doc2
        (runAutosaveEffect true sheetTitle doc1 st0))).1.savesIssued =
      st0.savesIssued ++ [{ doc2 with title := sheetTitle }] ∧
    (fireAutosaveTimer (runAutosaveEffect true sheetTitle doc2
        (runAutosaveEffect true sheetTitle doc1 st0))).1.timer = none := by
  have h1 := runAutosaveEffect_schedules sheetTitle doc1 st0 hConflict hInflight hsig1
  have h2 := runAutosaveEffect_schedules sheetTitle doc2
    (runAutosaveEffect true sheetTitle doc1 st0)
    (by rw [h1]; exact hConflict) (by rw [h1]; exact hInflight) (by rw [h1]; exact hsig2)
  refine ⟨⟨_, by rw [h1], rfl⟩, ?_, ?_⟩
  · rw [h2, h1]
    rfl
  · rw [h2, h1]
    rfl

/-- Witness for C8: from a clean pipeline, editing twice (root-only document
then root+child) and letting the debounce fire issues exactly one save
carrying the later document. -/
theorem c8_debounce_single_save_witness :
    (∃ t1, (runAutosaveEffect true "Graph 1" demoState0.document demoPipeline0).timer =
        some t1 ∧ t1.payload = { demoState0.document with title := "Graph 1" }) ∧
    (fireAutosaveTimer (runAutosaveEffect true "Graph 1" demoStateA.document
        (runAutosaveEffect true "Graph 1" demoState0.document demoPipeline0))).1.savesIssued =
      demoPipeline0.savesIssued ++ [{ demoStateA.document with title := "Graph 1" }] ∧
    (fireAutosaveTimer (runAutosaveEffect true "Graph 1" demoStateA.document
        (runAutosaveEffect true "Graph 1" demoState0.document demoPipeline0))).1.timer = none :=
  c8_debounce_single_save demoPipeline0 "Graph 1" demoState0.document demoStateA.document
    rfl rfl (by decide) (by decide)

/-- Claim C9: a save completion whose captured request version no longer
equals the current autosave version — the pipeline was invalidated in the
meantime — never modifies `lastSavedSignature`, the remote baseline token,
the conflict flag or the sync status: the stale result is discarded
silently, whatever the outcome was. -/
theorem c9_stale_completion_discarded (t : PendingSave) (outcome : SaveOutcome)
    (st : PipelineState) (hstale : t.requestVersion ≠ st.autosaveVersion) :
    (settleAutosave t outcome st).lastSavedSignature = st.lastSavedSignature ∧
    (settleAutosave t outcome st).remoteUpdatedAt = st.remoteUpdatedAt ∧
    (settleAutosave t outcome st).hasSyncConflict = st.hasSyncConflict ∧
    (settleAutosave t outcome st).syncStatus = st.syncStatus := by
  unfold settleAutosave
  cases outcome with
  | resolved value =>
    dsimp only
    rw [if_pos hstale]
    dsimp only
    split <;> exact ⟨rfl, rfl, rfl, rfl⟩
  | rejected message =>
    dsimp only
    rw [if_pos hstale]
    dsimp only
    split <;> exact ⟨rfl, rfl, rfl, rfl⟩

/-- Witness for C9: a completion captured at version 0 arriving after
`invalidateAutosavePipeline` bumped the version to 1 leaves signature,
baseline, conflict flag and status untouched. -/
theorem c9_stale_completion_discarded_witness :
    ({ requestVersion := 0, payload := demoState0.document, signature := "s" } :
        PendingSave).requestVersion ≠
      (invalidateAutosavePipeline demoPipeline0).autosaveVersion ∧
    (settleAutosave { requestVersion := 0, payload := demoState0.document, signature := "s" }
        (.rejected "network down") (invalidateAutosavePipeline demoPipeline0)).lastSavedSignature =
      (invalidateAutosavePipeline demoPipeline0).lastSavedSignature ∧
    (settleAutosave { requestVersion := 0, payload := demoState0.document, signature := "s" }
        (.rejected "network down") (invalidateAutosavePipeline demoPipeline0)).syncStatus =
      (invalidateAutosavePipeline demoPipeline0).syncStatus := by
  have h := c9_stale_completion_discarded
    { requestVersion := 0, payload := demoState0.document, signature := "s" }
    (.rejected "network down") (invalidateAutosavePipeline demoPipeline0) (by decide)
  exact ⟨by decide, h.1, h.2.2.2⟩

/-- Claim C1: if the save is issued with a truthy expected version token
`V` while the store's effective remote token is some truthy `V' ≠ V`, then
`saveMindmap` rejects with the `SYNC_CONFLICT` message (which the
pipeline's conflict distinguisher recognises) and leaves the store
untouched, and settling that rejection in the autosave handler (at a live
request version) leaves `lastSavedSignature` and the remote baseline
unchanged while raising the conflict flag. -/
theorem c1_conflict_round_trip (projectId now V V' title : String)
    (store : SheetStore) (input : SaveMindmapInput) (t : PendingSave) (st : PipelineState)
    (htitle : toSheetTitle input.sheetTitle = .ok title)
    (hexp : input.expectedRemoteUpdatedAtIso = some V) (hV : V ≠ "")
    (hremote : remoteUpdatedAtOf store title = V') (hV' : V' ≠ "") (hne : V ≠ V')
    (hver : t.requestVersion = st.autosaveVersion) :
    (saveMindmap projectId now store input).1 = .rejected syncConflictMessage ∧
    isSyncConflictError syncConflictMessage = true ∧
    (saveMindmap projectId now store input).2 = store ∧
    (settleAutosave t (saveMindmap projectId now store input).1 st).lastSavedSignature =
      st.lastSavedSignature ∧
    (settleAutosave t (saveMindmap projectId now store input).1 st).remoteUpdatedAt =
      st.remoteUpdatedAt ∧
    (settleAutosave t (saveMindmap projectId now store input).1 st).hasSyncConflict = true := by
  have hconf : (saveMindmap projectId now store input).1 = .rejected syncConflictMessage ∧
      (saveMindmap projectId now store input).2 = store := by
    simp only [saveMindmap, htitle]
    rw [hremote, hexp]
    dsimp only
    rw [if_pos (by simp [hV, hV', hne])]
    exact ⟨rfl, rfl⟩
  refine ⟨hconf.1, by decide, hconf.2, ?_⟩
  rw [hconf.1]
  have hsc : isSyncConflictError syncConflictMessage = true := by decide
  simp [settleAutosave, hver, hsc]

set_option maxRecDepth 4000 in
/-- Witness for C1: in the concrete conflict scenario — document loaded
under version token `conflictBaselineToken`, store token moved out-of-band
to `conflictRemoteToken`, save issued with the stale expected token — the
save rejects with the `SYNC_CONFLICT` message, the store is untouched, and
the settled pipeline keeps its `lastSavedSignature` and remote baseline
while the conflict flag is raised. -/
theorem c1_conflict_round_trip_witness :
    (saveMindmap "proj" "2026-01-02T10:00:00.000Z" conflictStore0 conflictInput).1 =
      .rejected syncConflictMessage ∧
    isSyncConflictError syncConflictMessage = true ∧
    (saveMindmap "proj" "2026-01-02T10:00:00.000Z" conflictStore0 conflictInput).2 =
      conflictStore0 ∧
    (settleAutosave conflictTimer
        (saveMindmap "proj" "2026-01-02T10:00:00.000Z" conflictStore0 conflictInput).1
        conflictSt2).lastSavedSignature = conflictSt2.lastSavedSignature ∧
    (settleAutosave conflictTimer
        (saveMindmap "proj" "2026-01-02T10:00:00.000Z" conflictStore0 conflictInput).1
        conflictSt2).remoteUpdatedAt = conflictSt2.remoteUpdatedAt ∧
    (settleAutosave conflictTimer
        (saveMindmap "proj" "2026-01-02T10:00:00.000Z" conflictStore0 conflictInput).1
        conflictSt2).hasSyncConflict = true :=
  c1_conflict_round_trip "proj" "2026-01-02T10:00:00.000Z" conflictBaselineToken
    conflictRemoteToken "Graph 1" conflictStore0 conflictInput conflictTimer conflictSt2
    rfl (by decide) (by decide) (by decide) (by decide) (by decide) (by decide)

end ReactMind
